import Mathlib

/-!
Verification development for the Crunchyroll rating-helper content script
(`src/content.js`, with the earlier iteration of the same script as a second
source file).  The script is shallowly embedded: JavaScript numbers are
modelled as exact decimal fractions with an explicit `NaN` value (`JSNum`),
the DOM is a flat store of elements with identity, and every stateful function
is written in explicit state-passing style.  All definitions are executable
and reduce inside the kernel.
-/

/-! ## JavaScript numbers

A finite JavaScript number is modelled as an exact decimal fraction
`num / 10 ^ exp` (`Dec10`); `NaN` is `Option.none` of `JSNum`.  Double
rounding is not modelled; all numeric data this script handles (ratings such
as `4.6`, vote counts such as `121.4`) are short decimals that doubles
represent faithfully for every comparison the script performs.  Every
operation canonicalises its result (no trailing zero factors), so value
equality of finite numbers coincides with representation equality. -/

def pow10 : ℕ → ℤ
  | 0 => 1
  | n + 1 => 10 * pow10 n

structure Dec10 where
  num : ℤ
  exp : ℕ
  deriving DecidableEq, Repr

/-- Remove factors of ten shared by numerator and denominator (fuel = `exp`). -/
def d10Strip : ℕ → Dec10 → Dec10
  | 0, x => x
  | f + 1, x =>
    if x.exp = 0 then x
    else if x.num % 10 = 0 then d10Strip f ⟨x.num / 10, x.exp - 1⟩ else x

def d10Canon (x : Dec10) : Dec10 := d10Strip x.exp x

/-- The rational value of a decimal fraction (used only for reasoning). -/
def toQ (x : Dec10) : ℚ := (x.num : ℚ) / ((pow10 x.exp : ℤ) : ℚ)

def d10Lt (a b : Dec10) : Bool := decide (a.num * pow10 b.exp < b.num * pow10 a.exp)

def d10ValEq (a b : Dec10) : Bool := decide (a.num * pow10 b.exp = b.num * pow10 a.exp)

def d10Pos (a : Dec10) : Bool := decide (0 < a.num)

def d10Sub (a b : Dec10) : Dec10 :=
  d10Canon ⟨a.num * pow10 b.exp - b.num * pow10 a.exp, a.exp + b.exp⟩

def d10MulNat (a : Dec10) (k : ℕ) : Dec10 := d10Canon ⟨a.num * (k : ℤ), a.exp⟩

def d10OfNat (n : ℕ) : Dec10 := ⟨(n : ℤ), 0⟩

abbrev JSNum := Option Dec10

/-- The number `n` as a JS value. -/
def jsInt (n : ℕ) : JSNum := some (d10OfNat n)

/-- JS subtraction: any operand `NaN` gives `NaN`. -/
def jsSub : JSNum → JSNum → JSNum
  | some a, some b => some (d10Sub a b)
  | _, _ => none

/-- JS multiplication by a natural constant (used for the `k` suffix, `× 1000`). -/
def jsMulNat : JSNum → ℕ → JSNum
  | some a, k => some (d10MulNat a k)
  | none, _ => none

/-- JS strict inequality `a !== b`; `NaN !== x` is true for every `x`. -/
def jsStrictNe : JSNum → JSNum → Bool
  | some a, some b => !(d10ValEq a b)
  | _, _ => true

/-- JS strict equality `a === b`; false whenever either side is `NaN`. -/
def jsEqNum : JSNum → JSNum → Bool
  | some a, some b => d10ValEq a b
  | _, _ => false

/-- JS `a > b`; false whenever either side is `NaN`. -/
def jsGtNum : JSNum → JSNum → Bool
  | some a, some b => d10Lt b a
  | _, _ => false

/-- The comparator result `x` is positive (`x > 0`); false for `NaN`. -/
def jsIsPos : JSNum → Bool
  | some q => d10Pos q
  | none => false

/-! ## Character and string utilities

String operations are modelled by hand on `List Char` so that every
definition reduces inside the kernel. -/

def isDigitC (c : Char) : Bool := decide (48 ≤ c.toNat) && decide (c.toNat ≤ 57)

def isSpaceC (c : Char) : Bool :=
  decide (c = ' ') || decide (c = '\t') || decide (c = '\n') || decide (c = '\r')

/-- Model of `String.prototype.trim`: drop leading and trailing whitespace. -/
def jsTrim (s : String) : String :=
  ⟨((s.data.dropWhile isSpaceC).reverse.dropWhile isSpaceC).reverse⟩

/-- Does the character list `n` occur as a leading segment of `h`? -/
def startsWithL : List Char → List Char → Bool
  | [], _ => true
  | _ :: _, [] => false
  | a :: as, b :: bs => decide (a = b) && startsWithL as bs

/-- Does `n` occur as a contiguous segment of `h`?  Model of `String.includes`
and of the CSS attribute substring operator `[class*="…"]`. -/
def listIsInfix : List Char → List Char → Bool
  | n, [] => n.isEmpty
  | n, h@(_ :: t) => startsWithL n h || listIsInfix n t

def strIncludes (hay needle : String) : Bool := listIsInfix needle.data hay.data

/-- Join class tokens with single spaces: the `className` attribute string. -/
def joinSp : List String → String
  | [] => ""
  | [c] => c
  | c :: r => c ++ " " ++ joinSp r

/-- Numeric value of a digit run (most significant first). -/
def digitsVal (ds : List Char) : ℕ := ds.foldl (fun a c => 10 * a + (c.toNat - 48)) 0

def natToChars : ℕ → ℕ → List Char
  | 0, _ => []
  | fuel + 1, n =>
    if n < 10 then [Char.ofNat (48 + n)]
    else natToChars fuel (n / 10) ++ [Char.ofNat (48 + n % 10)]

def natStr (n : ℕ) : String := ⟨natToChars (n + 1) n⟩

/-- Decimal rendering of a JS number, JS style (`4.6`, `5`, `0.46`, `4.05`).
Model of `` `${rating}` `` for the finite decimals this script produces
(exponent notation for extreme magnitudes is not modelled). -/
def jsNumToString : JSNum → String
  | none => "NaN"
  | some x =>
    let c := d10Canon x
    let sgn := if c.num < 0 then "-" else ""
    let n := c.num.natAbs
    if c.exp = 0 then sgn ++ natStr n
    else
      let p := (pow10 c.exp).toNat
      let ds := natToChars (n % p + 1) (n % p)
      sgn ++ natStr (n / p) ++ "." ++ ⟨List.replicate (c.exp - ds.length) '0' ++ ds⟩

/-! ## `parseFloat`

Model of the JS builtin: skip leading whitespace, then read the longest prefix
of the form `sign? (digits ['.' digits?] | '.' digits) (e sign? digits)?`; if
no such prefix exists the result is `NaN`.  The `Infinity` literal is not
modelled (no rating text on the page is `Infinity`). -/

/-- Read an optional sign character, returning the sign and the rest. -/
def signSplit (cs : List Char) : ℤ × List Char :=
  match cs with
  | c :: r => if c = '-' then (-1, r) else if c = '+' then (1, r) else (1, cs)
  | [] => (1, cs)

def parseFloatChars (cs : List Char) : JSNum :=
  let p := signSplit cs
  let ip := (p.2.takeWhile isDigitC, p.2.dropWhile isDigitC)
  let fp := match ip.2 with
    | c :: r =>
      if c = '.' then (r.takeWhile isDigitC, r.dropWhile isDigitC) else ([], ip.2)
    | [] => ([], ip.2)
  if ip.1.isEmpty && fp.1.isEmpty then none
  else
    let mant : Dec10 :=
      ⟨p.1 * ((digitsVal ip.1 : ℤ) * pow10 fp.1.length + (digitsVal fp.1 : ℤ)),
       fp.1.length⟩
    let ex : ℤ := match fp.2 with
      | c :: r =>
        if c = 'e' ∨ c = 'E' then
          let q := signSplit r
          let ed := q.2.takeWhile isDigitC
          if ed.isEmpty then 0 else q.1 * (digitsVal ed : ℤ)
        else 0
      | [] => 0
    let scaled : Dec10 :=
      if 0 ≤ ex then ⟨mant.num * pow10 ex.toNat, mant.exp⟩
      else ⟨mant.num, mant.exp + (-ex).toNat⟩
    some (d10Canon scaled)

def parseFloat (s : String) : JSNum := parseFloatChars (s.data.dropWhile isSpaceC)

/-- The rating path of `extractRatingData`:
`parseFloat(ratingElement.textContent.trim())`. -/
def parseRating (text : String) : JSNum := parseFloat (jsTrim text)

/-! ## The votes parser

`extractRatingData` runs `votesText.match(/\(([\d.]+)([kK])?\)/)`.  The regex
is unanchored: the engine scans for the leftmost position at which `'('`, a
non-empty run of digits-or-dots, an optional `k`/`K` and `')'` occur.  Because
the character classes `[\d.]`, `[kK]` and `)` are pairwise disjoint, no
backtracking can succeed where this greedy scan fails, so the scan below is an
exact model. -/

def isDigitDot (c : Char) : Bool := isDigitC c || decide (c = '.')

/-- Try to match `([\d.]+)([kK])?\)` right after a `'('` at the head of `cs`;
returns the captured digit-or-dot run and the `k` flag. -/
def voteMatchHere (cs : List Char) : Option (List Char × Bool) :=
  let run := cs.takeWhile isDigitDot
  let rest := cs.dropWhile isDigitDot
  if run.isEmpty then none
  else
    match rest with
    | c1 :: t1 =>
      if c1 = ')' then some (run, false)
      else if c1 = 'k' ∨ c1 = 'K' then
        match t1 with
        | c2 :: _ => if c2 = ')' then some (run, true) else none
        | [] => none
      else none
    | [] => none

/-- Leftmost regex match over the whole string. -/
def voteScan : List Char → Option (List Char × Bool)
  | [] => none
  | c :: t =>
    if c = '(' then
      match voteMatchHere t with
      | some r => some r
      | none => voteScan t
    else voteScan t

/-- The votes path of `extractRatingData`: `0` when the regex does not match;
otherwise `parseFloat` of the captured run, multiplied by 1000 on a `k`/`K`. -/
def parseVotes (votesText : String) : JSNum :=
  match voteScan votesText.data with
  | none => jsInt 0
  | some (run, kflag) =>
    let v := parseFloat ⟨run⟩
    if kflag then jsMulNat v 1000 else v

/-! ## The host document tree

The DOM is modelled as a flat association list from node identities to
elements.  An element carries its class token list, its own text, and the
ordered list of its child identities.  `querySelectorAll` walks descendants in
pre-order; `appendChild` detaches a node from its current parent and appends
it.  Well-formedness (unique keys, unique parents, acyclicity) is not baked
into the type; theorems that need it take it as an explicit, decidable
hypothesis. -/

structure Elem where
  classes : List String
  text : String
  kids : List ℕ
  deriving DecidableEq, Repr

abbrev Dom := List (ℕ × Elem)

def lookupE (d : Dom) (i : ℕ) : Option Elem :=
  (d.find? (fun p => p.1 == i)).map (·.2)

/-- The ordered child list of node `i` (empty when `i` is absent). -/
def kidsOf (d : Dom) (i : ℕ) : List ℕ := ((lookupE d i).map (·.kids)).getD []

def classesOf (d : Dom) (i : ℕ) : List String := ((lookupE d i).map (·.classes)).getD []

/-- The `className` attribute string of node `i`. -/
def classNameOf (d : Dom) (i : ℕ) : String := joinSp (classesOf d i)

/-- Descendant identities of `i` in pre-order, with fuel.  In an acyclic
document the depth is bounded by the number of elements, so
`descendants` below never exhausts its fuel. -/
def descAux (d : Dom) : ℕ → ℕ → List ℕ
  | 0, _ => []
  | fuel + 1, i =>
    match lookupE d i with
    | none => []
    | some e => e.kids.flatMap (fun k => k :: descAux d fuel k)

def descendants (d : Dom) (i : ℕ) : List ℕ := descAux d d.length i

/-- Concatenated text of node `i` and its descendants (`Node.textContent`). -/
def textAux (d : Dom) : ℕ → ℕ → String
  | 0, _ => ""
  | fuel + 1, i =>
    match lookupE d i with
    | none => ""
    | some e => e.kids.foldl (fun acc k => acc ++ textAux d fuel k) e.text

def textContent (d : Dom) (i : ℕ) : String := textAux d d.length i

/-- JS `parentNode`: the first store entry whose child list contains `x`. -/
def parentOf (d : Dom) (x : ℕ) : Option ℕ :=
  (d.find? (fun p => p.2.kids.contains x)).map (·.1)

/-! ### Selectors

The script uses three selector shapes: plain class selectors (`.foo`),
conjunctions of attribute substring tests (`[class*="a"][class*="b"]`), and an
attribute substring test with a `:has(…)` argument.  The `:has` pseudo-class
is rejected with a syntax error by query engines that do not support it; the
`Engine` value models that capability.  Engines validate a selector before
matching, so an unsupported selector raises on every use, independent of the
document. -/

inductive Sel where
  | classTok : String → Sel
  | classSubstrs : List String → Sel
  | classSubstrsHas : List String → Sel → Sel
  deriving DecidableEq, Repr

structure Engine where
  hasSupported : Bool
  deriving DecidableEq, Repr

def selValid (eng : Engine) : Sel → Bool
  | .classTok _ => true
  | .classSubstrs _ => true
  | .classSubstrsHas _ inner => eng.hasSupported && selValid eng inner

/-- Does the element at `j` match the selector? -/
def matchB (d : Dom) (j : ℕ) : Sel → Bool
  | .classTok c =>
    match lookupE d j with
    | some e => e.classes.contains c
    | none => false
  | .classSubstrs subs =>
    match lookupE d j with
    | some e => subs.all (fun sub => strIncludes (joinSp e.classes) sub)
    | none => false
  | .classSubstrsHas subs inner =>
    (match lookupE d j with
     | some e => subs.all (fun sub => strIncludes (joinSp e.classes) sub)
     | none => false)
    && (descendants d j).any (fun k => matchB d k inner)

/-- `root.querySelectorAll(sel)` with the engine's validity check:
an unsupported selector throws (`Except.error`). -/
def queryAllE (eng : Engine) (d : Dom) (root : ℕ) (sel : Sel) : Except Unit (List ℕ) :=
  if selValid eng sel then .ok ((descendants d root).filter (fun j => matchB d j sel))
  else .error ()

/-- `querySelectorAll` for the plain class selectors the script uses outside
the fallback cascades (these never throw). -/
def queryAll (d : Dom) (root : ℕ) (sel : Sel) : List ℕ :=
  (descendants d root).filter (fun j => matchB d j sel)

/-- `root.querySelector(sel)`: first matching descendant in pre-order. -/
def querySel (d : Dom) (root : ℕ) (sel : Sel) : Option ℕ :=
  (descendants d root).find? (fun j => matchB d j sel)

/-! ### DOM mutation -/

/-- Remove `x` from every child list: the detach half of `appendChild`.
(In a well-formed document `x` has at most one parent, so this coincides with
removal from its unique parent.) -/
def detach (d : Dom) (x : ℕ) : Dom :=
  d.map (fun p => (p.1, { p.2 with kids := p.2.kids.filter (fun k => k ≠ x) }))

/-- Append the (already detached) fragment children to `c`'s child list. -/
def appendKids (d : Dom) (c : ℕ) (frag : List ℕ) : Dom :=
  d.map (fun p => if p.1 == c then (p.1, { p.2 with kids := p.2.kids ++ frag }) else p)

/-- `titleElement.textContent = str`: replaces the node's children with a
single text node — own text becomes `str`, the child list becomes empty. -/
def setTextContent (d : Dom) (i : ℕ) (str : String) : Dom :=
  d.map (fun p => if p.1 == i then (p.1, { p.2 with text := str, kids := [] }) else p)

/-! ### The selector table (`SELECTORS` in the script) -/

def innerCardSel : Sel := .classTok "browse-card--esJdT"
def carouselCardSel : Sel := .classTok "carousel-scroller__card--4Lrk-"
def browseCardSel : Sel := .classTok "browse-card"
def titleSel : Sel := .classTok "browse-card__title-link--SLlRM"
def ratingSel : Sel := .classTok "star-rating-short-static__rating--bdAfR"
def votesSel : Sel := .classTok "star-rating-short-static__votes-count--h9Sun"
def carouselContainerSel : Sel := .classTok "carousel-scroller__track--43f0L"
def browseContainerSel : Sel := .classTok "erc-browse-cards-collection"

def cardFallbacks : List Sel :=
  [ .classTok "browse-card--esJdT",
    .classTok "browse-card",
    .classSubstrs ["browse-card"],
    .classSubstrsHas ["card"] (.classSubstrs ["rating"]) ]

def containerFallbacks : List Sel :=
  [ .classTok "carousel-scroller__track--43f0L",
    .classTok "erc-browse-cards-collection",
    .classSubstrs ["carousel", "track"],
    .classSubstrs ["browse", "collection"],
    .classSubstrsHas ["scroller"] (.classSubstrs ["card"]) ]

/-! ## Script state

The module-level mutable state of the content script.  The two `WeakSet`s are
modelled as identity lists (weakness — not keeping detached nodes alive — has
no observable effect on any behaviour considered here).  `setTimeout` calls
are modelled as counters of scheduled callbacks: `scheduledRetries` counts
`setTimeout(processAllCards, 800)`, `pendingSorts` counts the deferred
`sortAllContainers` calls, and `pendingScrolls` the deferred scroll resets. -/

structure St where
  dom : Dom
  processedCards : List ℕ
  processedContainers : List ℕ
  hasFoundCards : Bool
  retryCount : ℕ
  scheduledRetries : ℕ
  pendingSorts : ℕ
  pendingScrolls : ℕ
  deriving DecidableEq, Repr

/-! ## `extractRatingData` -/

structure RatingData where
  rating : JSNum
  votes : JSNum
  votesText : String
  deriving DecidableEq, Repr

def extractRatingData (d : Dom) (card : ℕ) : RatingData :=
  let ratingElement := querySel d card ratingSel
  let votesElement := querySel d card votesSel
  let rating := match ratingElement with
    | some e => parseRating (textContent d e)
    | none => jsInt 0
  let votesText := match votesElement with
    | some e => jsTrim (textContent d e)
    | none => "(0)"
  { rating := rating, votes := parseVotes votesText, votesText := votesText }

/-! ## `addRatingToTitle` -/

def addRatingToTitle (s : St) (card : ℕ) : Bool × St :=
  if s.processedCards.contains card then (false, s)
  else
    match querySel s.dom card titleSel with
    | none => (false, s)
    | some titleElement =>
      let rating := (extractRatingData s.dom card).rating
      if jsEqNum rating (jsInt 0) && !s.hasFoundCards then (false, s)
      else
        if jsGtNum rating (jsInt 0)
            && !(strIncludes (textContent s.dom titleElement)
                  ("(" ++ jsNumToString rating ++ ")")) then
          let originalTitle := jsTrim (textContent s.dom titleElement)
          (true,
            { s with
              dom := setTextContent s.dom titleElement
                       (originalTitle ++ " (" ++ jsNumToString rating ++ ")"),
              processedCards := card :: s.processedCards })
        else (false, s)

/-! ## The sort comparator and the stable sort

`Array.prototype.sort` is required by the language specification to be stable;
it is modelled by a stable insertion sort.  `insertSorted a l` places `a`
before the first element `b` of `l` with `cardLe a b`, where `cardLe a b`
means "the comparator does not order `a` strictly after `b`" — elements that
compare equal (or incomparably, via `NaN`) are passed over, which is exactly
stability for a sort that processes the original list from the left. -/

structure Item where
  element : ℕ
  innerCard : ℕ
  rating : JSNum
  votes : JSNum
  votesText : String
  deriving DecidableEq, Repr

/-- The inline comparator of `sortContainer` (also the body of the standalone
`compareCards` helper): rating descending, then votes descending. -/
def cardCmp (a b : Item) : JSNum :=
  if jsStrictNe a.rating b.rating then jsSub b.rating a.rating
  else jsSub b.votes a.votes

/-- `a` need not come after `b`: the comparator value `cardCmp a b` is not
positive (a `NaN` comparator value counts as "equal" per the sort algorithm). -/
def cardLe (a b : Item) : Bool := !(jsIsPos (cardCmp a b))

def insertSorted (a : Item) : List Item → List Item
  | [] => [a]
  | b :: l => if cardLe a b then a :: b :: l else b :: insertSorted a l

def jsSortCards : List Item → List Item
  | [] => []
  | a :: l => insertSorted a (jsSortCards l)

/-! ## `sortContainer` -/

inductive CType where
  | carousel
  | browse
  | generic
  deriving DecidableEq, Repr, BEq

/-- Per-card work inside the `cards.map` of `sortContainer`: resolve the inner
card (`card.querySelector(innerCard) || card`; the two branches of the
`needsWrapper` ternary in the source are the same expression), extract rating
data, annotate the title.  The `title` field of the returned object feeds only
logging and is omitted from the model; the per-card `try`/`catch` has nothing
to catch in the model. -/
def processCard (s : St) (card : ℕ) : St × Item :=
  let innerCard := (querySel s.dom card innerCardSel).getD card
  let ratingData := extractRatingData s.dom innerCard
  let s1 := (addRatingToTitle s innerCard).2
  (s1,
    { element := card, innerCard := innerCard,
      rating := ratingData.rating, votes := ratingData.votes,
      votesText := ratingData.votesText })

def processCards (s : St) (cards : List ℕ) : St × List Item :=
  cards.foldl (fun acc card =>
    let r := processCard acc.1 card
    (r.1, acc.2 ++ [r.2])) (s, [])

/-- One `fragment.appendChild(x)`: detach `x` from its parent (wherever it
is), record it at the end of the fragment. -/
def fragPush (d : Dom) (frag : List ℕ) (x : ℕ) : Dom × List ℕ := (detach d x, frag ++ [x])

/-- The DOM reordering block of `sortContainer` (the `try` block): push every
sorted rated element into the fragment unconditionally, then push each
remaining card only if it is still a child of `container`, then append the
fragment to `container`. -/
def reorderDom (d : Dom) (container : ℕ) (cards ratedElems : List ℕ) : Dom :=
  let p1 := ratedElems.foldl (fun acc x => fragPush acc.1 acc.2 x) (d, [])
  let p2 := cards.foldl (fun acc card =>
    if ratedElems.contains card then acc
    else if parentOf acc.1 card == some container then fragPush acc.1 acc.2 card
    else acc) p1
  appendKids p2.1 container p2.2

/-- The card-selector resolution of `sortContainer` (the `switch`): for
`generic` the card fallback list is scanned for the first selector that
matches at least one descendant, per-selector failures counting as
no-match. -/
def resolveCardSel (eng : Engine) (d : Dom) (container : ℕ) : CType → Option Sel
  | .carousel => some carouselCardSel
  | .browse => some browseCardSel
  | .generic =>
    cardFallbacks.find? (fun sel =>
      match queryAllE eng d container sel with
      | .ok l => decide (0 < l.length)
      | .error _ => false)

def sortContainer (eng : Engine) (s : St) (container : ℕ) (containerType : CType) :
    Bool × St :=
  if s.processedContainers.contains container then (false, s)
  else
    match resolveCardSel eng s.dom container containerType with
    | none => (false, s)
    | some cardSelector =>
      -- The selector was just validated (or is a plain class selector), so
      -- this second query cannot throw; the error arm is unreachable.
      let cards := match queryAllE eng s.dom container cardSelector with
        | .ok l => l
        | .error _ => []
      if cards.length < 2 then (false, s)
      else
        let r := processCards s cards
        let s1 := r.1
        let cardsWithRatings := r.2.filter (fun it => jsGtNum it.rating (jsInt 0))
        if cardsWithRatings.length < 2 then (false, s1)
        else
          let sorted := jsSortCards cardsWithRatings
          let ratedElems := sorted.map (·.element)
          let d2 := reorderDom s1.dom container cards ratedElems
          let scroll := containerType == CType.carousel
            || strIncludes (classNameOf s1.dom container) "carousel"
            || strIncludes (classNameOf s1.dom container) "scroller"
          (true,
            { s1 with
              dom := d2,
              pendingScrolls := s1.pendingScrolls + (if scroll then 1 else 0),
              processedContainers := container :: s1.processedContainers })

/-! ## The earlier iteration's per-type handlers

Transcribed from the previous version of the content script (the second
source file).  The decisive difference from `sortContainer`: the carousel and
browse handlers resolve the inner card as `card.querySelector(innerCard)`
with **no** `|| card` fallback, and skip the card entirely (returning `null`
from the `map`) when it is absent.  (In the browse handler the guarding
ternary `card.querySelector ? … : card` always takes its first branch, since
elements always have a `querySelector` method.)  The `title` field again feeds
only logging and is omitted. -/

def oldProcessCard (s : St) (card : ℕ) : St × Option Item :=
  match querySel s.dom card innerCardSel with
  | none => (s, none)
  | some innerCard =>
    let ratingData := extractRatingData s.dom innerCard
    let s1 := (addRatingToTitle s innerCard).2
    (s1,
      some { element := card, innerCard := innerCard,
             rating := ratingData.rating, votes := ratingData.votes,
             votesText := ratingData.votesText })

def oldProcessCards (s : St) (cards : List ℕ) : St × List (Option Item) :=
  cards.foldl (fun acc card =>
    let r := oldProcessCard acc.1 card
    (r.1, acc.2 ++ [r.2])) (s, [])

def handleCarouselContainer (s : St) (container : ℕ) : Bool × St :=
  if s.processedContainers.contains container then (false, s)
  else
    let cards := queryAll s.dom container carouselCardSel
    if cards.length < 2 then (false, s)
    else
      let r := oldProcessCards s cards
      let s1 := r.1
      let cardsWithRatings :=
        (r.2.filterMap id).filter (fun it => jsGtNum it.rating (jsInt 0))
      if cardsWithRatings.length < 2 then (false, s1)
      else
        let sorted := jsSortCards cardsWithRatings
        let ratedElems := sorted.map (·.element)
        let d2 := reorderDom s1.dom container cards ratedElems
        (true,
          { s1 with
            dom := d2,
            pendingScrolls := s1.pendingScrolls + 1,
            processedContainers := container :: s1.processedContainers })

def handleBrowseContainer (s : St) (container : ℕ) : Bool × St :=
  if s.processedContainers.contains container then (false, s)
  else
    let cards := queryAll s.dom container browseCardSel
    if cards.length < 2 then (false, s)
    else
      let r := oldProcessCards s cards
      let s1 := r.1
      let cardsWithRatings :=
        (r.2.filterMap id).filter (fun it => jsGtNum it.rating (jsInt 0))
      if cardsWithRatings.length < 2 then (false, s1)
      else
        let sorted := jsSortCards cardsWithRatings
        let ratedElems := sorted.map (·.element)
        let d2 := reorderDom s1.dom container cards ratedElems
        (true,
          { s1 with
            dom := d2,
            processedContainers := container :: s1.processedContainers })

/-- The card-resolution loop of `handleGenericContainer`: first fallback
selector whose query succeeds with at least one node wins (`break`);
per-selector failures are caught and the loop continues. -/
def firstFallbackCards (eng : Engine) (d : Dom) (root : ℕ) : List Sel → List ℕ
  | [] => []
  | sel :: rest =>
    match queryAllE eng d root sel with
    | .error _ => firstFallbackCards eng d root rest
    | .ok l => if 0 < l.length then l else firstFallbackCards eng d root rest

def handleGenericContainer (eng : Engine) (s : St) (container : ℕ) : Bool × St :=
  if s.processedContainers.contains container then (false, s)
  else
    let cards := firstFallbackCards eng s.dom container cardFallbacks
    if cards.length < 2 then (false, s)
    else
      let r := processCards s cards
      let s1 := r.1
      let cardsWithRatings := r.2.filter (fun it => jsGtNum it.rating (jsInt 0))
      if cardsWithRatings.length < 2 then (false, s1)
      else
        let sorted := jsSortCards cardsWithRatings
        let ratedElems := sorted.map (·.element)
        let d2 := reorderDom s1.dom container cards ratedElems
        let scroll := strIncludes (classNameOf s1.dom container) "carousel"
          || strIncludes (classNameOf s1.dom container) "scroller"
        (true,
          { s1 with
            dom := d2,
            pendingScrolls := s1.pendingScrolls + (if scroll then 1 else 0),
            processedContainers := container :: s1.processedContainers })

/-! ## `detectAllContainers` -/

structure Detected where
  carousels : List ℕ
  browse : List ℕ
  unknown : List (ℕ × ℕ)
  deriving DecidableEq, Repr

/-- The bucketing step applied to each node matched by a fallback container
selector: count descendant carousel cards, browse cards and inner cards and
append the node to the first non-empty bucket; nodes matching no card shape
are discarded. -/
def bucketNode (d : Dom) (acc : Detected) (container : ℕ) : Detected :=
  let carouselCards := (queryAll d container carouselCardSel).length
  let browseCards := (queryAll d container browseCardSel).length
  let innerCards := (queryAll d container innerCardSel).length
  if 0 < carouselCards then { acc with carousels := acc.carousels ++ [container] }
  else if 0 < browseCards then { acc with browse := acc.browse ++ [container] }
  else if 0 < innerCards then { acc with unknown := acc.unknown ++ [(container, innerCards)] }
  else acc

/-- The fallback cascade (`SELECTORS.containerFallbacks.forEach` with its
per-selector `try`/`catch`). -/
def fallbackScan (eng : Engine) (d : Dom) (root : ℕ) (acc : Detected) :
    List Sel → Detected
  | [] => acc
  | sel :: rest =>
    match queryAllE eng d root sel with
    | .error _ => fallbackScan eng d root acc rest
    | .ok cs => fallbackScan eng d root (cs.foldl (bucketNode d) acc) rest

def detectAllContainers (eng : Engine) (d : Dom) (root : ℕ) : Detected :=
  let carousels := queryAll d root carouselContainerSel
  let browse := queryAll d root browseContainerSel
  let detected : Detected := { carousels := carousels, browse := browse, unknown := [] }
  if carousels.length = 0 && browse.length = 0 then
    fallbackScan eng d root detected containerFallbacks
  else detected

/-! ## `processAllCards` and the debounce

`MAX_RETRIES` is 5.  A zero-card pass that has never seen cards and has retry
budget left increments the counter and schedules a retry
(`scheduledRetries`).  A pass that finds cards latches `hasFoundCards`,
annotates every card (isolating per-card failures — nothing to catch in the
model), schedules a deferred sort sweep if anything new was annotated, and
resets the retry counter. -/

def MAX_RETRIES : ℕ := 5

/-- The per-card body of the `innerCards.forEach` loop in `processAllCards`,
threading the count of newly processed cards. -/
def annotateStep (acc : St × ℕ) (card : ℕ) : St × ℕ :=
  let wasProcessed := acc.1.processedCards.contains card
  let s' := (addRatingToTitle acc.1 card).2
  if !wasProcessed && s'.processedCards.contains card then (s', acc.2 + 1)
  else (s', acc.2)

def processAllCards (root : ℕ) (s : St) : St :=
  let innerCards := queryAll s.dom root innerCardSel
  if innerCards.length = 0 then
    if !s.hasFoundCards && s.retryCount < MAX_RETRIES then
      { s with retryCount := s.retryCount + 1,
               scheduledRetries := s.scheduledRetries + 1 }
    else s
  else
    let s1 := if !s.hasFoundCards then { s with hasFoundCards := true } else s
    let r := innerCards.foldl annotateStep (s1, 0)
    let s2 := if 0 < r.2 then { r.1 with pendingSorts := r.1.pendingSorts + 1 } else r.1
    { s2 with retryCount := 0 }

/-- Timer bookkeeping for `debouncedProcessCards`.  `activeTimers` holds ids
of scheduled, not-yet-fired, not-cancelled debounce timers; `debounceTimeout`
is the module variable of that name (it keeps the stale id after a timer
fires, exactly as in the script, where it is never nulled). -/
structure DebSt where
  activeTimers : List ℕ
  debounceTimeout : Option ℕ
  nextId : ℕ
  passes : ℕ
  inner : St
  deriving DecidableEq, Repr

def debouncedProcessCards (s : DebSt) : DebSt :=
  let s0 := match s.debounceTimeout with
    | some t => { s with activeTimers := s.activeTimers.filter (fun x => x ≠ t) }
    | none => s
  { s0 with
    activeTimers := s0.activeTimers ++ [s0.nextId],
    debounceTimeout := some s0.nextId,
    nextId := s0.nextId + 1 }

/-- The timer with id `t` reaches its deadline: if it was not cancelled, its
callback runs one processing pass. -/
def fireTimer (root : ℕ) (s : DebSt) (t : ℕ) : DebSt :=
  if s.activeTimers.contains t then
    { s with
      activeTimers := s.activeTimers.filter (fun x => x ≠ t),
      passes := s.passes + 1,
      inner := processAllCards root s.inner }
  else s

/-- Let every timer ever created reach its deadline (the end of the debounce
window). -/
def fireAll (root : ℕ) (s : DebSt) : DebSt :=
  (List.range s.nextId).foldl (fireTimer root) s

/-! ## Well-formedness predicates and structural views

None of these are enforced by the embedding's types; theorems about reorders
take them as explicit decidable hypotheses, all satisfied by any real
document tree. -/

/-- Store keys are distinct (each node identity occurs once). -/
def KeysNodup (d : Dom) : Prop := (d.map (·.1)).Nodup

/-- Child lists of distinct store entries are disjoint (unique parents). -/
def PairDisjoint (d : Dom) : Prop :=
  List.Pairwise List.Disjoint (d.map (fun p => p.2.kids))

/-- Title elements are leaves (their text is their own, with no child
nodes) — true of the `<a class="…title-link…">text</a>` markup this script
targets.  Under this condition annotation rewrites text without altering the
tree structure. -/
def TitleLeaves (d : Dom) : Prop :=
  ∀ p ∈ d, p.2.classes.contains "browse-card__title-link--SLlRM" = true → p.2.kids = []

instance decListDisjoint (l1 l2 : List ℕ) : Decidable (List.Disjoint l1 l2) :=
  decidable_of_iff (∀ a ∈ l1, a ∉ l2)
    ⟨fun h a ha hb => h a ha hb, fun h _a ha hb => h ha hb⟩

instance decKeysNodup (d : Dom) : Decidable (KeysNodup d) := by
  unfold KeysNodup
  infer_instance

instance decPairDisjoint (d : Dom) : Decidable (PairDisjoint d) := by
  unfold PairDisjoint
  infer_instance

instance decTitleLeaves (d : Dom) : Decidable (TitleLeaves d) := by
  unfold TitleLeaves
  infer_instance

/-- The structural part of an element: classes and child list. -/
def elemShape (e : Elem) : List String × List ℕ := (e.classes, e.kids)

/-- The structural part of a store: everything class-based queries and child
reads can observe. -/
def shapeOf (d : Dom) : List (ℕ × (List String × List ℕ)) :=
  d.map (fun p => (p.1, elemShape p.2))

/-- Iterated detach (the net DOM effect of pushing a list into a fragment). -/
def detachList (d : Dom) (xs : List ℕ) : Dom := xs.foldl detach d

/-- An item's keys are finite numbers (no `NaN`). -/
def FiniteKeys (it : Item) : Prop := it.rating.isSome ∧ it.votes.isSome

instance decFiniteKeys (it : Item) : Decidable (FiniteKeys it) := by
  unfold FiniteKeys
  infer_instance

/-! ## Spec-side votes grammar (for claim C4)

Modelled from the spec: the votes grammar `'(' digits ['.' digits] [k|K] ')'`
as a whole-string shape, used to compare the claimed grammar against the
unanchored regex the code actually runs. -/

/-- Modelled from the spec: does the whole string match
`'(' digits ['.' digits] [k|K] ')'`? -/
def specVotesMatch (s : String) : Bool :=
  match s.data with
  | c :: t =>
    if c = '(' then
      let ds := t.takeWhile isDigitC
      let r1 := t.dropWhile isDigitC
      if ds.isEmpty then false
      else
        let r3? : Option (List Char) := match r1 with
          | c1 :: u =>
            if c1 = '.' then
              if (u.takeWhile isDigitC).isEmpty then none
              else some (u.dropWhile isDigitC)
            else some r1
          | [] => some r1
        match r3? with
        | none => false
        | some r3 =>
          let r4 := match r3 with
            | c2 :: v => if c2 = 'k' ∨ c2 = 'K' then v else r3
            | [] => r3
          match r4 with
          | [c3] => c3 = ')'
          | _ => false
    else false
  | [] => false

/-- Modelled from the spec: the text `'(' ds ['.' fs] [k] ')'` built from a
grammar derivation. -/
def specVotesText (ds fs kmark : List Char) : String :=
  ⟨'(' :: (ds ++ (if fs.isEmpty then [] else '.' :: fs) ++ kmark ++ [')'])⟩

/-- Modelled from the spec: the value the grammar assigns — the decimal
`ds.fs`, multiplied by 1000 when the `k`/`K` mark is present. -/
def specVotesVal (ds fs : List Char) (k : Bool) : JSNum :=
  let base : JSNum :=
    some (d10Canon ⟨(digitsVal ds : ℤ) * pow10 fs.length + (digitsVal fs : ℤ), fs.length⟩)
  if k then jsMulNat base 1000 else base

/-! ## Concrete documents used by examples and witnesses -/

def engNoHas : Engine := ⟨false⟩
def engHas : Engine := ⟨true⟩

def initSt (d : Dom) : St :=
  { dom := d, processedCards := [], processedContainers := [],
    hasFoundCards := false, retryCount := 0, scheduledRetries := 0,
    pendingSorts := 0, pendingScrolls := 0 }

def initDeb (d : Dom) : DebSt :=
  { activeTimers := [], debounceTimeout := none, nextId := 1, passes := 0,
    inner := initSt d }

def ratingCls : String := "star-rating-short-static__rating--bdAfR"
def votesCls : String := "star-rating-short-static__votes-count--h9Sun"
def titleCls : String := "browse-card__title-link--SLlRM"

/-- Browse container `0` with four card children; ratings 4.2 / 4.8 / 4.8 / 0,
the two 4.8 cards with equal vote counts. -/
def exDomSort : Dom :=
  [ (0, ⟨["erc-browse-cards-collection"], "", [1, 2, 3, 4]⟩),
    (1, ⟨["browse-card"], "", [11, 21]⟩),
    (2, ⟨["browse-card"], "", [12, 22]⟩),
    (3, ⟨["browse-card"], "", [13, 23]⟩),
    (4, ⟨["browse-card"], "", [14, 24]⟩),
    (11, ⟨[ratingCls], "4.2", []⟩), (21, ⟨[votesCls], "(10)", []⟩),
    (12, ⟨[ratingCls], "4.8", []⟩), (22, ⟨[votesCls], "(10)", []⟩),
    (13, ⟨[ratingCls], "4.8", []⟩), (23, ⟨[votesCls], "(10)", []⟩),
    (14, ⟨[ratingCls], "0", []⟩),  (24, ⟨[votesCls], "(10)", []⟩) ]

/-- The comparator items corresponding to the rated cards of `exDomSort`:
ratings 4.2 / 4.8 / 4.8 / 0 with equal vote counts. -/
def exItems : List Item :=
  [ ⟨1, 1, some ⟨42, 1⟩, some ⟨10, 0⟩, "(10)"⟩,
    ⟨2, 2, some ⟨48, 1⟩, some ⟨10, 0⟩, "(10)"⟩,
    ⟨3, 3, some ⟨48, 1⟩, some ⟨10, 0⟩, "(10)"⟩,
    ⟨4, 4, some ⟨0, 0⟩, some ⟨10, 0⟩, "(10)"⟩ ]

/-- Membership in the comparator-equal class of the two 4.8-rated items of
`exItems`. -/
def exEqClass (it : Item) : Bool :=
  decide (it.rating = some ⟨48, 1⟩ ∧ it.votes = some ⟨10, 0⟩)

/-- Browse container `0` whose second rated card `2` sits inside a wrapper
`5`, i.e. its parent is not the container. -/
def exDomStray : Dom :=
  [ (0, ⟨["erc-browse-cards-collection"], "", [1, 5]⟩),
    (1, ⟨["browse-card"], "", [11]⟩),
    (5, ⟨["wrapper"], "", [2]⟩),
    (2, ⟨["browse-card"], "", [12]⟩),
    (11, ⟨[ratingCls], "4.5", []⟩),
    (12, ⟨[ratingCls], "4.7", []⟩) ]

/-- Carousel container `0` with two carousel cards that carry rating elements
but no inner-card (`browse-card--esJdT`) descendant. -/
def exDomNoInner : Dom :=
  [ (0, ⟨["carousel-scroller__track--43f0L"], "", [1, 2]⟩),
    (1, ⟨["carousel-scroller__card--4Lrk-"], "", [11]⟩),
    (2, ⟨["carousel-scroller__card--4Lrk-"], "", [12]⟩),
    (11, ⟨[ratingCls], "4.5", []⟩),
    (12, ⟨[ratingCls], "4.7", []⟩) ]

/-- Browse container `0` with two browse cards that do carry inner-card
(`browse-card--esJdT`) descendants. -/
def exDomInner : Dom :=
  [ (0, ⟨["erc-browse-cards-collection"], "", [1, 2]⟩),
    (1, ⟨["browse-card"], "", [31]⟩),
    (2, ⟨["browse-card"], "", [32]⟩),
    (31, ⟨["browse-card--esJdT"], "", [11]⟩),
    (32, ⟨["browse-card--esJdT"], "", [12]⟩),
    (11, ⟨[ratingCls], "4.5", []⟩),
    (12, ⟨[ratingCls], "4.7", []⟩) ]

/-- A single inner card `1` with rating `4.6` and title `"Show X"`. -/
def exDomCard : Dom :=
  [ (1, ⟨["browse-card--esJdT"], "", [11, 31]⟩),
    (11, ⟨[ratingCls], "4.6", []⟩),
    (31, ⟨[titleCls], "Show X", []⟩) ]

/-- A single card whose rating element holds unparsable text. -/
def exDomGarbage : Dom :=
  [ (1, ⟨["browse-card--esJdT"], "", [11, 31]⟩),
    (11, ⟨[ratingCls], "garbage", []⟩),
    (31, ⟨[titleCls], "Show X", []⟩) ]

/-- A document with no cards at all (root `99`). -/
def exDomEmpty : Dom := [(99, ⟨[], "", []⟩)]

/-- Root `99` over a primary browse container. -/
def exDomPrimary : Dom :=
  [ (99, ⟨[], "", [0]⟩),
    (0, ⟨["erc-browse-cards-collection"], "", [1]⟩),
    (1, ⟨["browse-card"], "", []⟩) ]

/-- Root `99` over a container matched only by the `:has` fallback selector
(class `my-scroller-box`), holding one inner card. -/
def exDomScroller : Dom :=
  [ (99, ⟨[], "", [0]⟩),
    (0, ⟨["my-scroller-box"], "", [1]⟩),
    (1, ⟨["browse-card--esJdT"], "", []⟩) ]

/-! # Lemmas and theorems

## Decimal-fraction arithmetic vs. its rational semantics -/

theorem pow10_pos (n : ℕ) : 0 < pow10 n := by
  induction n with
  | zero => simp [pow10]
  | succ n ih => simp only [pow10]; omega

theorem pow10_add (m n : ℕ) : pow10 (m + n) = pow10 m * pow10 n := by
  induction m with
  | zero => simp [pow10]
  | succ m ih => simp only [Nat.succ_add, pow10, ih]; ring

theorem pow10_cast_pos (n : ℕ) : (0 : ℚ) < ((pow10 n : ℤ) : ℚ) := by
  exact_mod_cast pow10_pos n

theorem d10Lt_iff (a b : Dec10) : d10Lt a b = true ↔ toQ a < toQ b := by
  unfold d10Lt toQ
  rw [decide_eq_true_eq, div_lt_div_iff (pow10_cast_pos _) (pow10_cast_pos _)]
  constructor
  · intro h; exact_mod_cast h
  · intro h; exact_mod_cast h

theorem d10ValEq_iff (a b : Dec10) : d10ValEq a b = true ↔ toQ a = toQ b := by
  unfold d10ValEq toQ
  rw [decide_eq_true_eq, div_eq_div_iff (ne_of_gt (pow10_cast_pos _)) (ne_of_gt (pow10_cast_pos _))]
  constructor
  · intro h; exact_mod_cast h
  · intro h; exact_mod_cast h

theorem d10Pos_iff (a : Dec10) : d10Pos a = true ↔ 0 < toQ a := by
  unfold d10Pos toQ
  rw [decide_eq_true_eq, lt_div_iff (pow10_cast_pos _), zero_mul]
  constructor
  · intro h; exact_mod_cast h
  · intro h; exact_mod_cast h

theorem toQ_d10Strip (f : ℕ) (x : Dec10) : toQ (d10Strip f x) = toQ x := by
  induction f generalizing x with
  | zero => rfl
  | succ f ih =>
    unfold d10Strip
    by_cases h0 : x.exp = 0
    · simp [h0]
    · simp only [h0, if_false]
      by_cases hm : x.num % 10 = 0
      · simp only [hm, if_true, ih]
        obtain ⟨k, hk⟩ : (10 : ℤ) ∣ x.num := Int.dvd_of_emod_eq_zero hm
        obtain ⟨e, he⟩ : ∃ e, x.exp = e + 1 := ⟨x.exp - 1, by omega⟩
        unfold toQ
        simp only [hk, he, Int.mul_ediv_cancel_left _ (by norm_num : (10:ℤ) ≠ 0)]
        simp only [Nat.add_sub_cancel, pow10]
        have hne := ne_of_gt (pow10_cast_pos e)
        push_cast
        field_simp
        ring
      · simp [hm]

theorem toQ_d10Canon (x : Dec10) : toQ (d10Canon x) = toQ x := toQ_d10Strip _ _

theorem toQ_d10Sub (a b : Dec10) : toQ (d10Sub a b) = toQ a - toQ b := by
  unfold d10Sub
  rw [toQ_d10Canon]
  unfold toQ
  simp only [pow10_add]
  have ha := ne_of_gt (pow10_cast_pos a.exp)
  have hb := ne_of_gt (pow10_cast_pos b.exp)
  push_cast
  field_simp
  ring

/-! ## The comparator order -/

theorem cardLe_iff (a b : Item) (ra rb va vb : Dec10)
    (hra : a.rating = some ra) (hrb : b.rating = some rb)
    (hva : a.votes = some va) (hvb : b.votes = some vb) :
    cardLe a b = true ↔ (toQ rb < toQ ra ∨ (toQ ra = toQ rb ∧ toQ vb ≤ toQ va)) := by
  unfold cardLe cardCmp
  by_cases hEq : toQ ra = toQ rb
  · have : d10ValEq ra rb = true := (d10ValEq_iff _ _).mpr hEq
    simp only [hra, hrb, hva, hvb, jsStrictNe, this, Bool.not_true, if_false, jsSub,
      jsIsPos, Bool.not_eq_true']
    rw [Bool.eq_false_iff]
    constructor
    · intro h
      refine Or.inr ⟨hEq, ?_⟩
      by_contra hlt
      push_neg at hlt
      exact h ((d10Pos_iff _).mpr (by rw [toQ_d10Sub]; linarith))
    · rintro (h | ⟨-, h⟩)
      · exact absurd hEq (ne_of_gt (by linarith [h]))
      · intro hpos
        have := (d10Pos_iff _).mp hpos
        rw [toQ_d10Sub] at this
        linarith
  · have : d10ValEq ra rb = false := by
      rw [Bool.eq_false_iff]; intro h; exact hEq ((d10ValEq_iff _ _).mp h)
    simp only [hra, hrb, hva, hvb, jsStrictNe, this, Bool.not_false, if_true, jsSub,
      jsIsPos, Bool.not_eq_true']
    rw [Bool.eq_false_iff]
    constructor
    · intro h
      refine Or.inl ?_
      by_contra hlt
      push_neg at hlt
      rcases lt_or_eq_of_le hlt with h2 | h2
      · exact h ((d10Pos_iff _).mpr (by rw [toQ_d10Sub]; linarith))
      · exact hEq h2
    · rintro (h | ⟨h, -⟩)
      · intro hpos
        have := (d10Pos_iff _).mp hpos
        rw [toQ_d10Sub] at this
        linarith
      · exact absurd h hEq

theorem cardLe_total (a b : Item) (ha : FiniteKeys a) (hb : FiniteKeys b) :
    cardLe a b = true ∨ cardLe b a = true := by
  obtain ⟨ra, hra⟩ := Option.isSome_iff_exists.mp ha.1
  obtain ⟨va, hva⟩ := Option.isSome_iff_exists.mp ha.2
  obtain ⟨rb, hrb⟩ := Option.isSome_iff_exists.mp hb.1
  obtain ⟨vb, hvb⟩ := Option.isSome_iff_exists.mp hb.2
  rw [cardLe_iff a b ra rb va vb hra hrb hva hvb,
    cardLe_iff b a rb ra vb va hrb hra hvb hva]
  rcases lt_trichotomy (toQ ra) (toQ rb) with h | h | h
  · exact Or.inr (Or.inl h)
  · rcases le_total (toQ vb) (toQ va) with h2 | h2
    · exact Or.inl (Or.inr ⟨h, h2⟩)
    · exact Or.inr (Or.inr ⟨h.symm, h2⟩)
  · exact Or.inl (Or.inl h)

theorem cardLe_trans (a b c : Item) (ha : FiniteKeys a) (hb : FiniteKeys b)
    (hc : FiniteKeys c) (hab : cardLe a b = true) (hbc : cardLe b c = true) :
    cardLe a c = true := by
  obtain ⟨ra, hra⟩ := Option.isSome_iff_exists.mp ha.1
  obtain ⟨va, hva⟩ := Option.isSome_iff_exists.mp ha.2
  obtain ⟨rb, hrb⟩ := Option.isSome_iff_exists.mp hb.1
  obtain ⟨vb, hvb⟩ := Option.isSome_iff_exists.mp hb.2
  obtain ⟨rc, hrc⟩ := Option.isSome_iff_exists.mp hc.1
  obtain ⟨vc, hvc⟩ := Option.isSome_iff_exists.mp hc.2
  rw [cardLe_iff a b ra rb va vb hra hrb hva hvb] at hab
  rw [cardLe_iff b c rb rc vb vc hrb hrc hvb hvc] at hbc
  rw [cardLe_iff a c ra rc va vc hra hrc hva hvc]
  rcases hab with h1 | ⟨h1, h1v⟩ <;> rcases hbc with h2 | ⟨h2, h2v⟩
  · exact Or.inl (by linarith)
  · exact Or.inl (by linarith)
  · exact Or.inl (by linarith)
  · exact Or.inr ⟨by linarith, by linarith⟩

/-! ## The stable sort -/

theorem insertSorted_perm (a : Item) (l : List Item) :
    List.Perm (insertSorted a l) (a :: l) := by
  induction l with
  | nil => exact List.Perm.refl _
  | cons b t ih =>
    unfold insertSorted
    by_cases h : cardLe a b = true
    · simp only [h, if_true]
      exact List.Perm.refl _
    · simp only [Bool.not_eq_true] at h
      simp only [h, Bool.false_eq_true, if_false]
      exact (ih.cons b).trans (List.Perm.swap a b t)

theorem jsSortCards_perm (l : List Item) : List.Perm (jsSortCards l) l := by
  induction l with
  | nil => rfl
  | cons a t ih =>
    unfold jsSortCards
    exact (insertSorted_perm a (jsSortCards t)).trans (ih.cons a)

theorem insertSorted_pairwise (a : Item) (l : List Item)
    (hfin : ∀ x ∈ a :: l, FiniteKeys x)
    (hl : List.Pairwise (fun x y => cardLe x y = true) l) :
    List.Pairwise (fun x y => cardLe x y = true) (insertSorted a l) := by
  induction l with
  | nil => simp [insertSorted]
  | cons b t ih =>
    have hfa : FiniteKeys a := hfin a (by simp)
    have hfb : FiniteKeys b := hfin b (by simp)
    rw [List.pairwise_cons] at hl
    unfold insertSorted
    by_cases h : cardLe a b = true
    · simp only [h, if_true]
      rw [List.pairwise_cons]
      refine ⟨?_, List.pairwise_cons.mpr hl⟩
      intro y hy
      rcases List.mem_cons.mp hy with rfl | hy
      · exact h
      · exact cardLe_trans a b y hfa hfb
          (hfin y (List.mem_cons_of_mem _ (List.mem_cons_of_mem _ hy))) h (hl.1 y hy)
    · simp only [Bool.not_eq_true] at h
      simp only [h, Bool.false_eq_true, if_false]
      rw [List.pairwise_cons]
      constructor
      · intro y hy
        have hy' := (insertSorted_perm a t).mem_iff.mp hy
        rcases List.mem_cons.mp hy' with h' | hy'
        · rw [h']
          rcases cardLe_total a b hfa hfb with h1 | h1
          · rw [h1] at h; cases h
          · exact h1
        · exact hl.1 y hy'
      · refine ih ?_ hl.2
        intro x hx
        rcases List.mem_cons.mp hx with rfl | hx
        · exact hfa
        · exact hfin x (List.mem_cons_of_mem _ (List.mem_cons_of_mem _ hx))

theorem jsSortCards_pairwise (l : List Item) (hfin : ∀ x ∈ l, FiniteKeys x) :
    List.Pairwise (fun x y => cardLe x y = true) (jsSortCards l) := by
  induction l with
  | nil => simp [jsSortCards]
  | cons a t ih =>
    unfold jsSortCards
    refine insertSorted_pairwise a (jsSortCards t) ?_
      (ih (fun x hx => hfin x (List.mem_cons_of_mem _ hx)))
    intro x hx
    rcases List.mem_cons.mp hx with h' | hx
    · exact h' ▸ hfin a (List.mem_cons_self _ _)
    · exact hfin x (List.mem_cons_of_mem _ ((jsSortCards_perm t).mem_iff.mp hx))

theorem insertSorted_filter (f : Item → Bool)
    (hf : ∀ x y, f x = true → f y = true → cardLe x y = true) (a : Item) (l : List Item) :
    (insertSorted a l).filter f = if f a then a :: l.filter f else l.filter f := by
  induction l with
  | nil => cases hfa : f a <;> simp [insertSorted, List.filter, hfa]
  | cons b t ih =>
    unfold insertSorted
    by_cases h : cardLe a b = true
    · simp only [h, if_true]
      by_cases hfa : f a = true
      · simp [List.filter, hfa]
      · simp only [Bool.not_eq_true] at hfa
        simp [List.filter, hfa]
    · simp only [Bool.not_eq_true] at h
      simp only [h, Bool.false_eq_true, if_false]
      by_cases hfb : f b = true
      · have hfa : f a = false := by
          rw [Bool.eq_false_iff]
          intro hfa
          rw [hf a b hfa hfb] at h; cases h
        simp only [List.filter, hfb, hfa] at *
        simp [ih, hfa]
      · simp only [List.filter, hfb] at *
        simp [ih]

theorem jsSortCards_filter (f : Item → Bool)
    (hf : ∀ x y, f x = true → f y = true → cardLe x y = true) (l : List Item) :
    (jsSortCards l).filter f = l.filter f := by
  induction l with
  | nil => rfl
  | cons a t ih =>
    unfold jsSortCards
    rw [insertSorted_filter f hf a (jsSortCards t), ih]
    by_cases hfa : f a = true
    · simp [List.filter, hfa]
    · simp only [Bool.not_eq_true] at hfa
      simp [List.filter, hfa]

/-! ## Parsing lemmas -/

theorem digit_not_space {c : Char} (h : isDigitC c = true) : isSpaceC c = false := by
  rw [isDigitC, Bool.and_eq_true] at h
  obtain ⟨h1, h2⟩ := h
  rw [decide_eq_true_eq] at h1 h2
  have w1 : c ≠ ' ' := fun hc => absurd h1 (by subst hc; decide)
  have w2 : c ≠ '\t' := fun hc => absurd h1 (by subst hc; decide)
  have w3 : c ≠ '\n' := fun hc => absurd h1 (by subst hc; decide)
  have w4 : c ≠ '\r' := fun hc => absurd h1 (by subst hc; decide)
  simp [isSpaceC, w1, w2, w3, w4]

theorem digit_ne_minus {c : Char} (h : isDigitC c = true) : (c = '-') = False := by
  simp only [eq_iff_iff, iff_false]
  intro hc; subst hc; exact absurd h (by decide)

theorem digit_ne_plus {c : Char} (h : isDigitC c = true) : (c = '+') = False := by
  simp only [eq_iff_iff, iff_false]
  intro hc; subst hc; exact absurd h (by decide)

theorem digit_isDigitDot {c : Char} (h : isDigitC c = true) : isDigitDot c = true := by
  simp [isDigitDot, h]

theorem takeWhile_append_all (p : Char → Bool) (xs ys : List Char)
    (h1 : ∀ c ∈ xs, p c = true) (h2 : ∀ c, ys.head? = some c → p c = false) :
    (xs ++ ys).takeWhile p = xs ∧ (xs ++ ys).dropWhile p = ys := by
  induction xs with
  | nil =>
    simp only [List.nil_append]
    cases ys with
    | nil => simp
    | cons c t =>
      have := h2 c rfl
      simp [List.takeWhile, List.dropWhile, this]
  | cons x xs ih =>
    have hx := h1 x (List.mem_cons_self _ _)
    have := ih (fun c hc => h1 c (List.mem_cons_of_mem _ hc))
    simp only [List.cons_append, List.takeWhile, List.dropWhile, hx, List.append_eq]
    exact ⟨by rw [this.1], this.2⟩

theorem signSplit_digit {d : Char} (hd : isDigitC d = true) (r : List Char) :
    signSplit (d :: r) = (1, d :: r) := by
  simp [signSplit, digit_ne_minus hd, digit_ne_plus hd]

/-- A non-empty all-digit run followed by a non-digit-dot (or nothing) is
taken whole by the float scanner's integer part. -/
theorem voteMatchHere_spec (ds fs kmark : List Char)
    (hds : ds ≠ []) (hd : ∀ c ∈ ds, isDigitC c = true)
    (hf : ∀ c ∈ fs, isDigitC c = true)
    (hk : kmark = [] ∨ kmark = ['k'] ∨ kmark = ['K']) :
    voteMatchHere (ds ++ (if fs.isEmpty then [] else '.' :: fs) ++ kmark ++ [')'])
      = some (ds ++ (if fs.isEmpty then [] else '.' :: fs), !kmark.isEmpty) := by
  set mid := if fs.isEmpty then [] else '.' :: fs with hmid
  have hall : ∀ c ∈ ds ++ mid, isDigitDot c = true := by
    intro c hc
    rcases List.mem_append.mp hc with hc | hc
    · exact digit_isDigitDot (hd c hc)
    · rw [hmid] at hc
      by_cases hfe : fs.isEmpty
      · simp [hfe] at hc
      · simp only [hfe, if_false] at hc
        rcases List.mem_cons.mp hc with h' | hc
        · simp [isDigitDot, h']
        · exact digit_isDigitDot (hf c hc)
  have hstop : ∀ c, (kmark ++ [')']).head? = some c → isDigitDot c = false := by
    intro c hc
    rcases hk with h | h | h <;> subst h <;> simp at hc <;> subst hc <;> decide
  have hsplit := takeWhile_append_all isDigitDot (ds ++ mid) (kmark ++ [')'])
    hall hstop
  unfold voteMatchHere
  rw [List.append_assoc (ds ++ mid) kmark [')']]
  rw [hsplit.1, hsplit.2]
  obtain ⟨d, ds', rfl⟩ : ∃ d ds', ds = d :: ds' := by
    cases ds with
    | nil => exact absurd rfl hds
    | cons d ds' => exact ⟨d, ds', rfl⟩
  rcases hk with h | h | h <;> subst h <;> simp

theorem parseFloatChars_run (ds fs : List Char) (hds : ds ≠ [])
    (hd : ∀ c ∈ ds, isDigitC c = true) (hf : ∀ c ∈ fs, isDigitC c = true) :
    parseFloatChars (ds ++ (if fs.isEmpty then [] else '.' :: fs))
      = some (d10Canon
          ⟨(digitsVal ds : ℤ) * pow10 fs.length + (digitsVal fs : ℤ), fs.length⟩) := by
  set mid := if fs.isEmpty then [] else '.' :: fs with hmid
  obtain ⟨d, ds', rfl⟩ : ∃ d ds', ds = d :: ds' := by
    cases ds with
    | nil => exact absurd rfl hds
    | cons d ds' => exact ⟨d, ds', rfl⟩
  have hd0 := hd d (List.mem_cons_self _ _)
  have hsign : signSplit ((d :: ds') ++ mid) = (1, (d :: ds') ++ mid) := by
    rw [List.cons_append]
    exact signSplit_digit hd0 _
  have hstop : ∀ c, mid.head? = some c → isDigitC c = false := by
    intro c hc
    rw [hmid] at hc
    by_cases hfe : fs.isEmpty
    · simp [hfe] at hc
    · simp only [hfe, if_false, List.head?] at hc
      injection hc with hc
      subst hc
      decide
  have hsplit := takeWhile_append_all isDigitC (d :: ds') mid hd hstop
  unfold parseFloatChars
  rw [hsign]
  simp only [hsplit.1, hsplit.2]
  by_cases hfe : fs.isEmpty
  · have hfs : fs = [] := List.isEmpty_iff.mp hfe
    subst hfs
    rw [hmid]
    simp only [List.isEmpty_nil, if_true]
    simp only [List.isEmpty_cons, Bool.false_and, Bool.false_eq_true, if_false]
    congr 1
    congr 1
    simp [pow10, digitsVal]
  · rw [hmid]
    simp only [hfe, if_false]
    have hsplit2 := takeWhile_append_all isDigitC fs [] hf (by intro c hc; simp at hc)
    rw [List.append_nil] at hsplit2
    simp only [List.isEmpty_cons, Bool.false_and, Bool.false_eq_true, if_false,
      hsplit2.1, hsplit2.2]
    norm_num
    congr 1
    congr 1
    simp [pow10]

theorem parseVotes_grammar (ds fs kmark : List Char)
    (hds : ds ≠ []) (hd : ∀ c ∈ ds, isDigitC c = true)
    (hf : ∀ c ∈ fs, isDigitC c = true)
    (hk : kmark = [] ∨ kmark = ['k'] ∨ kmark = ['K']) :
    parseVotes (specVotesText ds fs kmark) = specVotesVal ds fs (!kmark.isEmpty) := by
  obtain ⟨d, ds', rfl⟩ : ∃ d ds', ds = d :: ds' := by
    cases ds with
    | nil => exact absurd rfl hds
    | cons d ds' => exact ⟨d, ds', rfl⟩
  have hd0 := hd d (List.mem_cons_self _ _)
  unfold parseVotes specVotesText
  show (match voteScan ('(' :: ((d :: ds') ++ _ ++ kmark ++ [')'])) with
    | none => jsInt 0
    | some (run, kflag) =>
      let v := parseFloat ⟨run⟩
      if kflag then jsMulNat v 1000 else v) = _
  rw [voteScan, if_pos rfl, voteMatchHere_spec (d :: ds') fs kmark hds hd hf hk]
  show (let v := parseFloat ⟨(d :: ds') ++ _⟩
        if !kmark.isEmpty then jsMulNat v 1000 else v) = _
  have hdrop : List.dropWhile isSpaceC ((d :: ds') ++ (if fs.isEmpty then [] else '.' :: fs))
      = (d :: ds') ++ (if fs.isEmpty then [] else '.' :: fs) := by
    rw [List.cons_append, List.dropWhile_cons]
    simp [digit_not_space hd0]
  show (let v := parseFloatChars (List.dropWhile isSpaceC ((d :: ds') ++ _))
        if !kmark.isEmpty then jsMulNat v 1000 else v) = _
  rw [hdrop, parseFloatChars_run (d :: ds') fs hds hd hf]
  rcases hk with rfl | rfl | rfl <;> simp [specVotesVal]

/-! ## Claims C3 and C4 -/

/-- C3 (counterexample): the claim says unparsable rating text yields `0`.
In `exDomGarbage` the rating sub-element is present and holds the text
`"garbage"`, which is unparsable as a decimal, yet the extracted rating is
`NaN` (`none`), not `0`. -/
theorem c3_counterexample :
    (querySel exDomGarbage 1 ratingSel).isSome = true
    ∧ (extractRatingData exDomGarbage 1).rating = none
    ∧ (extractRatingData exDomGarbage 1).rating ≠ jsInt 0 := by
  refine ⟨by decide, by decide, by decide⟩

/-- C3 (amended): rating extraction returns `parseFloat` of the trimmed text
of the rating sub-element (the longest decimal-literal head of the text);
text with no parsable numeric head yields `NaN` — not `0` — which downstream
is likewise treated as "no rating" since neither `NaN > 0` nor `NaN === 0`
holds; an absent rating sub-element yields `0`. -/
theorem c3_amended :
    (∀ d card e, querySel d card ratingSel = some e →
       (extractRatingData d card).rating = parseRating (textContent d e))
    ∧ (∀ d card, querySel d card ratingSel = none →
       (extractRatingData d card).rating = jsInt 0)
    ∧ (∀ x, jsGtNum none x = false)
    ∧ jsEqNum none (jsInt 0) = false
    ∧ parseRating "garbage" = none := by
  refine ⟨?_, ?_, fun x => rfl, rfl, by decide⟩
  · intro d card e h
    unfold extractRatingData
    rw [h]
  · intro d card h
    unfold extractRatingData
    rw [h]

/-- C3 (witness): the amended theorem applied to the concrete documents. -/
theorem c3_amended_witness :
    (extractRatingData exDomSort 1).rating = parseRating (textContent exDomSort 11)
    ∧ (extractRatingData exDomSort 11).rating = jsInt 0 := by
  exact ⟨c3_amended.1 exDomSort 1 11 (by decide),
         c3_amended.2.1 exDomSort 11 (by decide)⟩

/-- C4 (counterexample): the claim says every input not matching the grammar
`'(' digits ['.' digits] [k|K] ')'` yields `0`.  The input `"(1.2.3)"` does
not match that grammar, yet the unanchored regex captures the run `1.2.3`,
`parseFloat` reads the head `1.2`, and the votes value is `1.2`, not `0`. -/
theorem c4_counterexample :
    specVotesMatch "(1.2.3)" = false
    ∧ parseVotes "(1.2.3)" = some ⟨12, 1⟩
    ∧ parseVotes "(1.2.3)" ≠ jsInt 0 := by
  refine ⟨by decide, by decide, by decide⟩

/-- C4 (amended): the votes parser searches for the leftmost substring of the
form `'(' [digit or dot]+ [k|K]? ')'` anywhere in the input; no such substring
(and absent input, whose default text is `"(0)"`) yields `0`; the captured run
is given to `parseFloat` (so stray dots beyond the first fraction are
tolerated and only the decimal head is read); a trailing `k`/`K` multiplies
the value by 1000.  On every input that does match the claimed grammar the
parser returns exactly the grammar's value, and in particular
`parseVotes "(121.4k)" = 121400`, `parseVotes "(0)" = 0`,
`parseVotes "garbage" = 0`, `parseVotes "(50)" = 50`. -/
theorem c4_amended :
    parseVotes "(121.4k)" = jsInt 121400
    ∧ parseVotes "(0)" = jsInt 0
    ∧ parseVotes "garbage" = jsInt 0
    ∧ parseVotes "(50)" = jsInt 50
    ∧ (∀ s : String, voteScan s.data = none → parseVotes s = jsInt 0)
    ∧ (∀ ds fs kmark : List Char, ds ≠ [] →
        (∀ c ∈ ds, isDigitC c = true) → (∀ c ∈ fs, isDigitC c = true) →
        (kmark = [] ∨ kmark = ['k'] ∨ kmark = ['K']) →
        parseVotes (specVotesText ds fs kmark) = specVotesVal ds fs (!kmark.isEmpty)) := by
  refine ⟨by decide, by decide, by decide, by decide, ?_, parseVotes_grammar⟩
  intro s h
  unfold parseVotes
  rw [h]

/-- C4 (witness): the amended theorem applied at concrete inputs, including a
full grammar derivation `( 1 2 1 . 4 k )`. -/
theorem c4_amended_witness :
    parseVotes "" = jsInt 0
    ∧ parseVotes (specVotesText ['1', '2', '1'] ['4'] ['k'])
        = specVotesVal ['1', '2', '1'] ['4'] true := by
  constructor
  · exact c4_amended.2.2.2.2.1 "" (by decide)
  · exact c4_amended.2.2.2.2.2 ['1', '2', '1'] ['4'] ['k'] (by decide)
      (by decide) (by decide) (Or.inr (Or.inl rfl))

/-! ## Frame lemmas for the annotator and the processing pass -/

theorem addRatingToTitle_frame (s : St) (c : ℕ) :
    ((addRatingToTitle s c).2).processedContainers = s.processedContainers
    ∧ ((addRatingToTitle s c).2).hasFoundCards = s.hasFoundCards
    ∧ ((addRatingToTitle s c).2).retryCount = s.retryCount
    ∧ ((addRatingToTitle s c).2).scheduledRetries = s.scheduledRetries
    ∧ ((addRatingToTitle s c).2).pendingSorts = s.pendingSorts
    ∧ ((addRatingToTitle s c).2).pendingScrolls = s.pendingScrolls := by
  unfold addRatingToTitle
  split
  · exact ⟨rfl, rfl, rfl, rfl, rfl, rfl⟩
  · split
    · exact ⟨rfl, rfl, rfl, rfl, rfl, rfl⟩
    · dsimp only
      split
      · exact ⟨rfl, rfl, rfl, rfl, rfl, rfl⟩
      · split
        · exact ⟨rfl, rfl, rfl, rfl, rfl, rfl⟩
        · exact ⟨rfl, rfl, rfl, rfl, rfl, rfl⟩

theorem annotateStep_frame (acc : St × ℕ) (card : ℕ) :
    ((annotateStep acc card).1).hasFoundCards = acc.1.hasFoundCards
    ∧ ((annotateStep acc card).1).scheduledRetries = acc.1.scheduledRetries := by
  unfold annotateStep
  have h := addRatingToTitle_frame acc.1 card
  dsimp only
  split
  · exact ⟨h.2.1, h.2.2.2.1⟩
  · exact ⟨h.2.1, h.2.2.2.1⟩

theorem annotateFold_frame (l : List ℕ) (acc : St × ℕ) :
    ((l.foldl annotateStep acc).1).hasFoundCards = acc.1.hasFoundCards
    ∧ ((l.foldl annotateStep acc).1).scheduledRetries = acc.1.scheduledRetries := by
  induction l generalizing acc with
  | nil => exact ⟨rfl, rfl⟩
  | cons c t ih =>
    simp only [List.foldl_cons]
    have h1 := annotateStep_frame acc c
    have h2 := ih (annotateStep acc c)
    exact ⟨h2.1.trans h1.1, h2.2.trans h1.2⟩

/-! ## Claim C7: the bootstrap retry budget -/

theorem zero_iterate (root : ℕ) (d : Dom) (hq : queryAll d root innerCardSel = [])
    (n : ℕ) :
    (processAllCards root)^[n] (initSt d)
      = { initSt d with retryCount := min n MAX_RETRIES,
                        scheduledRetries := min n MAX_RETRIES } := by
  induction n with
  | zero => simp [initSt]
  | succ n ih =>
    rw [Function.iterate_succ_apply', ih]
    unfold processAllCards
    simp only [initSt, hq, List.length_nil, if_true]
    by_cases h : n < MAX_RETRIES
    · have hmin : min n MAX_RETRIES = n := by omega
      have hmin2 : min (n + 1) MAX_RETRIES = n + 1 := by omega
      simp [hmin, hmin2, h]
    · have hmin : min n MAX_RETRIES = MAX_RETRIES := by omega
      have hmin2 : min (n + 1) MAX_RETRIES = MAX_RETRIES := by omega
      simp [hmin, hmin2, h]

/-- C7: with zero cards on every pass, the retry counter and the number of
scheduled retries after `n` passes are `min n MAX_RETRIES` — so exactly
`MAX_RETRIES = 5` retries get scheduled over the page's lifetime, after which
zero-card passes change nothing; once a pass has found cards
(`hasFoundCards`), a zero-card pass is a complete no-op for every value of
the retry counter (the counter is not consulted), `hasFoundCards` is never
reset, and a pass that finds cards schedules no retry. -/
theorem c7_retry_budget :
    (∀ (root : ℕ) (d : Dom) (n : ℕ), queryAll d root innerCardSel = [] →
       ((processAllCards root)^[n] (initSt d)).scheduledRetries = min n MAX_RETRIES
       ∧ ((processAllCards root)^[n] (initSt d)).dom = d
       ∧ ((processAllCards root)^[n] (initSt d)).hasFoundCards = false)
    ∧ (∀ (root : ℕ) (s : St), s.hasFoundCards = true →
        queryAll s.dom root innerCardSel = [] → processAllCards root s = s)
    ∧ (∀ (root : ℕ) (s : St), s.hasFoundCards = true →
        (processAllCards root s).hasFoundCards = true)
    ∧ (∀ (root : ℕ) (s : St), queryAll s.dom root innerCardSel ≠ [] →
        (processAllCards root s).scheduledRetries = s.scheduledRetries
        ∧ (processAllCards root s).hasFoundCards = true) := by
  refine ⟨?_, ?_, ?_, ?_⟩
  · intro root d n hq
    rw [zero_iterate root d hq n]
    exact ⟨rfl, rfl, rfl⟩
  · intro root s hf hq
    unfold processAllCards
    simp [hq, hf]
  · intro root s hf
    unfold processAllCards
    by_cases hq : (queryAll s.dom root innerCardSel).length = 0
    · simp only [hq, if_true, hf, Bool.not_true, Bool.false_and, Bool.false_eq_true,
        if_false]
    · simp only [hq, if_false, hf, Bool.not_true, Bool.false_eq_true, if_false]
      have := (annotateFold_frame (queryAll s.dom root innerCardSel) (s, 0)).1
      split <;> simpa [hf] using this
  · intro root s hq
    have hlen : ¬((queryAll s.dom root innerCardSel).length = 0) := by
      simpa [List.length_eq_zero] using hq
    unfold processAllCards
    simp only [hlen, if_false]
    constructor
    · by_cases hf : s.hasFoundCards
      · simp only [hf, Bool.not_true, Bool.false_eq_true, if_false]
        have := (annotateFold_frame (queryAll s.dom root innerCardSel) (s, 0)).2
        split <;> simpa using this
      · simp only [Bool.not_eq_true] at hf
        simp only [hf, Bool.not_false, if_true]
        have := (annotateFold_frame (queryAll s.dom root innerCardSel)
          ({ s with hasFoundCards := true }, 0)).2
        split <;> simpa using this
    · by_cases hf : s.hasFoundCards
      · simp only [hf, Bool.not_true, Bool.false_eq_true, if_false]
        have := (annotateFold_frame (queryAll s.dom root innerCardSel) (s, 0)).1
        split <;> simp_all
      · simp only [Bool.not_eq_true] at hf
        simp only [hf, Bool.not_false, if_true]
        have := (annotateFold_frame (queryAll s.dom root innerCardSel)
          ({ s with hasFoundCards := true }, 0)).1
        split <;> simp_all

/-- C7 (witness): with the concrete empty document, seven zero-card passes
schedule exactly five retries; a found-cards state ignores zero-card passes. -/
theorem c7_retry_budget_witness :
    ((processAllCards 99)^[7] (initSt exDomEmpty)).scheduledRetries = 5
    ∧ processAllCards 99 { initSt exDomEmpty with hasFoundCards := true }
        = { initSt exDomEmpty with hasFoundCards := true }
    ∧ (processAllCards 99 (initSt exDomScroller)).scheduledRetries = 0 := by
  refine ⟨?_, ?_, ?_⟩
  · rw [(c7_retry_budget.1 99 exDomEmpty 7 (by decide)).1]; decide
  · exact c7_retry_budget.2.1 99 _ rfl (by decide)
  · exact (c7_retry_budget.2.2.2 99 (initSt exDomScroller) (by decide)).1

/-! ## Claim C8: the debounce -/

theorem deb_iterate (d : Dom) (N : ℕ) (h : 1 ≤ N) :
    debouncedProcessCards^[N] (initDeb d)
      = { activeTimers := [N], debounceTimeout := some N, nextId := N + 1,
          passes := 0, inner := initSt d } := by
  induction N with
  | zero => omega
  | succ N ih =>
    by_cases hN : 1 ≤ N
    · rw [Function.iterate_succ_apply', ih hN]
      unfold debouncedProcessCards
      simp
    · have : N = 0 := by omega
      subst this
      rw [Function.iterate_one]
      unfold debouncedProcessCards initDeb
      simp

theorem fireTimer_not_mem (root : ℕ) (s : DebSt) (t : ℕ)
    (h : s.activeTimers.contains t = false) : fireTimer root s t = s := by
  unfold fireTimer
  rw [h]
  simp

theorem fireFold_empty (root : ℕ) (L : List ℕ) (s : DebSt)
    (h : s.activeTimers = []) : L.foldl (fireTimer root) s = s := by
  induction L with
  | nil => rfl
  | cons t L ih =>
    simp only [List.foldl_cons]
    rw [fireTimer_not_mem root s t (by simp [h]), ih]

theorem fireFold_single (root : ℕ) (L : List ℕ) (s : DebSt) (k : ℕ)
    (h : s.activeTimers = [k]) (hmem : k ∈ L) (hnd : L.Nodup) :
    (L.foldl (fireTimer root) s).passes = s.passes + 1 := by
  induction L with
  | nil => simp at hmem
  | cons t L ih =>
    simp only [List.foldl_cons]
    rcases List.mem_cons.mp hmem with h' | hmem'
    · have hc : s.activeTimers.contains t = true := by
        rw [h, ← h']
        simp
      have hfire : fireTimer root s t = { s with
          activeTimers := s.activeTimers.filter (fun x => x ≠ t),
          passes := s.passes + 1,
          inner := processAllCards root s.inner } := by
        unfold fireTimer
        rw [if_pos hc]
      rw [hfire, fireFold_empty root L _ (by rw [h, ← h']; simp)]
    · have ht : t ≠ k := by
        intro hk
        subst hk
        exact (List.nodup_cons.mp hnd).1 hmem'
      rw [fireTimer_not_mem root s t (by rw [h]; simp [ht])]
      exact ih hmem' (List.nodup_cons.mp hnd).2

/-- C8: every notification replaces the pending debounce timer — the fresh
timer id is scheduled and any distinct previously pending id is cancelled —
and for every `N ≥ 1`, `N` notifications arriving within one debounce window
(no timer fires in between) leave exactly one live timer, and letting every
timer ever created reach its deadline afterwards executes exactly one
processing pass. -/
theorem c8_debounce :
    (∀ s : DebSt, (debouncedProcessCards s).debounceTimeout = some s.nextId
       ∧ s.nextId ∈ (debouncedProcessCards s).activeTimers)
    ∧ (∀ (s : DebSt) (t : ℕ), s.debounceTimeout = some t → t ≠ s.nextId →
        t ∉ (debouncedProcessCards s).activeTimers)
    ∧ (∀ (root : ℕ) (d : Dom) (N : ℕ), 1 ≤ N →
        (debouncedProcessCards^[N] (initDeb d)).activeTimers = [N]
        ∧ (fireAll root (debouncedProcessCards^[N] (initDeb d))).passes = 1) := by
  refine ⟨?_, ?_, ?_⟩
  · intro s
    unfold debouncedProcessCards
    cases h : s.debounceTimeout <;> simp [h]
  · intro s t h hne
    unfold debouncedProcessCards
    simp only [h]
    simp [hne, List.mem_filter]
  · intro root d N hN
    rw [deb_iterate d N hN]
    refine ⟨rfl, ?_⟩
    unfold fireAll
    rw [fireFold_single root _ _ N rfl
      (List.mem_range.mpr (Nat.lt_succ_self N)) (List.nodup_range _)]

/-- C8 (witness): ten notifications and a full window elapse on a concrete
document yield exactly one pending timer and one processing pass. -/
theorem c8_debounce_witness :
    (debouncedProcessCards^[10] (initDeb exDomPrimary)).activeTimers = [10]
    ∧ (fireAll 99 (debouncedProcessCards^[10] (initDeb exDomPrimary))).passes = 1
    ∧ (debouncedProcessCards (initDeb exDomPrimary)).debounceTimeout = some 1 := by
  refine ⟨(c8_debounce.2.2 99 exDomPrimary 10 (by norm_num)).1,
          (c8_debounce.2.2 99 exDomPrimary 10 (by norm_num)).2,
          (c8_debounce.1 (initDeb exDomPrimary)).1⟩

/-! ## Claim C5: the annotator -/

theorem jsGt_zero_ne (x : JSNum) (h : jsGtNum x (jsInt 0) = true) :
    jsEqNum x (jsInt 0) = false := by
  cases x with
  | none => simp [jsGtNum] at h
  | some d =>
    simp only [jsGtNum, jsInt, d10OfNat] at h
    simp only [jsEqNum, jsInt, d10OfNat]
    rw [Bool.eq_false_iff]
    intro he
    have h1 := (d10Lt_iff _ _).mp h
    have h2 := (d10ValEq_iff _ _).mp he
    rw [h2] at h1
    exact lt_irrefl _ h1

/-- C5 (counterexample): the claim's no-op conditions are the marker, a
missing title, and rating `0`; with rating text `"garbage"` none of the three
holds (the extracted rating is `NaN ≠ 0`, the title is present and does not
contain the parenthesized rating), yet the call returns `false` and changes
nothing instead of appending. -/
theorem c5_counterexample :
    addRatingToTitle (initSt exDomGarbage) 1 = (false, initSt exDomGarbage)
    ∧ (extractRatingData exDomGarbage 1).rating ≠ jsInt 0
    ∧ (initSt exDomGarbage).processedCards.contains 1 = false
    ∧ (querySel exDomGarbage 1 titleSel).isSome = true
    ∧ strIncludes (textContent exDomGarbage 31)
        ("(" ++ jsNumToString (extractRatingData exDomGarbage 1).rating ++ ")") = false := by
  refine ⟨by decide, by decide, by decide, by decide, by decide⟩

/-- C5 (amended): `addRatingToTitle` is a no-op returning `false` if the card
carries the processed-card marker, if no title element is found, or if the
extracted rating is **not strictly positive** (`0`, `NaN`, or negative — not
only `0` as claimed); a `false` return never changes the state.  Otherwise,
when the title text does not already contain the literal parenthesized
rating, the title text becomes its trimmed self with `" (" + rating + ")"`
appended exactly once, the marker is set, and the call returns `true`; when
the title already contains the parenthesized rating the call returns `false`.
Calling twice on a card with rating `4.6` and title `"Show X"` yields
`"Show X (4.6)"` exactly once and the second call returns `false`. -/
theorem c5_amended :
    (∀ s card, s.processedCards.contains card = true →
       addRatingToTitle s card = (false, s))
    ∧ (∀ s card, querySel s.dom card titleSel = none →
       addRatingToTitle s card = (false, s))
    ∧ (∀ s card, jsGtNum (extractRatingData s.dom card).rating (jsInt 0) = false →
       addRatingToTitle s card = (false, s))
    ∧ (∀ s card, (addRatingToTitle s card).1 = false → (addRatingToTitle s card).2 = s)
    ∧ (∀ s card t, s.processedCards.contains card = false →
        querySel s.dom card titleSel = some t →
        jsGtNum (extractRatingData s.dom card).rating (jsInt 0) = true →
        strIncludes (textContent s.dom t)
          ("(" ++ jsNumToString (extractRatingData s.dom card).rating ++ ")") = false →
        addRatingToTitle s card
          = (true, { s with
              dom := setTextContent s.dom t
                (jsTrim (textContent s.dom t) ++ " ("
                  ++ jsNumToString (extractRatingData s.dom card).rating ++ ")"),
              processedCards := card :: s.processedCards }))
    ∧ (∀ s card t, querySel s.dom card titleSel = some t →
        strIncludes (textContent s.dom t)
          ("(" ++ jsNumToString (extractRatingData s.dom card).rating ++ ")") = true →
        (addRatingToTitle s card).1 = false)
    ∧ ((addRatingToTitle (initSt exDomCard) 1).1 = true
       ∧ textContent (addRatingToTitle (initSt exDomCard) 1).2.dom 31 = "Show X (4.6)"
       ∧ addRatingToTitle (addRatingToTitle (initSt exDomCard) 1).2 1
           = (false, (addRatingToTitle (initSt exDomCard) 1).2)) := by
  refine ⟨?_, ?_, ?_, ?_, ?_, ?_, by decide, by decide, by decide⟩
  · intro s card h
    unfold addRatingToTitle
    rw [h]
    simp
  · intro s card h
    unfold addRatingToTitle
    rw [h]
    split <;> rfl
  · intro s card h
    unfold addRatingToTitle
    split
    · rfl
    · split
      · rfl
      · dsimp only
        split
        · rfl
        · rw [h]
          simp
  · intro s card h
    unfold addRatingToTitle at h ⊢
    by_cases h1 : s.processedCards.contains card = true
    · rw [if_pos h1]
    · rw [if_neg h1] at h ⊢
      cases ht : querySel s.dom card titleSel with
      | none => rfl
      | some t =>
        rw [ht] at h
        dsimp only at h ⊢
        by_cases h2 : (jsEqNum (extractRatingData s.dom card).rating (jsInt 0)
            && !s.hasFoundCards) = true
        · rw [if_pos h2]
        · rw [if_neg h2] at h ⊢
          by_cases h3 : (jsGtNum (extractRatingData s.dom card).rating (jsInt 0)
              && !strIncludes (textContent s.dom t)
                ("(" ++ jsNumToString (extractRatingData s.dom card).rating ++ ")")) = true
          · rw [if_pos h3] at h
            cases h
          · rw [if_neg h3]
  · intro s card t hm ht hr hinc
    unfold addRatingToTitle
    rw [hm, ht]
    simp only [Bool.false_eq_true, if_false]
    rw [jsGt_zero_ne _ hr]
    simp only [Bool.false_and, Bool.false_eq_true, if_false]
    rw [hr, hinc]
    simp
  · intro s card t ht hinc
    unfold addRatingToTitle
    split
    · rfl
    · rw [ht]
      dsimp only
      split
      · rfl
      · rw [hinc]
        simp

/-- C5 (witness): the amended append equation and not-positive no-op applied
to the concrete documents. -/
theorem c5_amended_witness :
    addRatingToTitle (initSt exDomCard) 1
      = (true, { initSt exDomCard with
          dom := setTextContent exDomCard 31
            (jsTrim (textContent exDomCard 31) ++ " ("
              ++ jsNumToString (extractRatingData exDomCard 1).rating ++ ")"),
          processedCards := [1] })
    ∧ addRatingToTitle (initSt exDomGarbage) 1 = (false, initSt exDomGarbage) := by
  constructor
  · exact c5_amended.2.2.2.2.1 (initSt exDomCard) 1 31
      (by decide) (by decide) (by decide) (by decide)
  · exact c5_amended.2.2.1 (initSt exDomGarbage) 1 (by decide)

/-! ## Claim C9: container detection -/

theorem bucketFold_closed (d : Dom) (cs : List ℕ) (acc : Detected) :
    (cs.foldl (bucketNode d) acc).carousels
      = acc.carousels
        ++ cs.filter (fun c => decide (0 < (queryAll d c carouselCardSel).length))
    ∧ (cs.foldl (bucketNode d) acc).browse
      = acc.browse
        ++ cs.filter (fun c => !decide (0 < (queryAll d c carouselCardSel).length)
            && decide (0 < (queryAll d c browseCardSel).length))
    ∧ (cs.foldl (bucketNode d) acc).unknown
      = acc.unknown
        ++ (cs.filter (fun c => !decide (0 < (queryAll d c carouselCardSel).length)
              && !decide (0 < (queryAll d c browseCardSel).length)
              && decide (0 < (queryAll d c innerCardSel).length))).map
            (fun c => (c, (queryAll d c innerCardSel).length)) := by
  induction cs generalizing acc with
  | nil => simp
  | cons c cs ih =>
    simp only [List.foldl_cons, List.filter_cons]
    have := ih (bucketNode d acc c)
    by_cases h1 : 0 < (queryAll d c carouselCardSel).length
    · have hb : bucketNode d acc c = { acc with carousels := acc.carousels ++ [c] } := by
        unfold bucketNode
        rw [if_pos h1]
      rw [hb] at this
      rw [hb]
      simp [h1, this.1, this.2.1, this.2.2]
    · by_cases h2 : 0 < (queryAll d c browseCardSel).length
      · have hb : bucketNode d acc c = { acc with browse := acc.browse ++ [c] } := by
          unfold bucketNode
          rw [if_neg h1, if_pos h2]
        rw [hb] at this
        rw [hb]
        simp [h1, h2, this.1, this.2.1, this.2.2]
      · by_cases h3 : 0 < (queryAll d c innerCardSel).length
        · have hb : bucketNode d acc c
              = { acc with unknown := acc.unknown ++ [(c, (queryAll d c innerCardSel).length)] } := by
            unfold bucketNode
            rw [if_neg h1, if_neg h2, if_pos h3]
          rw [hb] at this
          rw [hb]
          simp [h1, h2, h3, this.1, this.2.1, this.2.2]
        · have hb : bucketNode d acc c = acc := by
            unfold bucketNode
            rw [if_neg h1, if_neg h2, if_neg h3]
          rw [hb] at this
          rw [hb]
          simp [h1, h2, h3, this.1, this.2.1, this.2.2]

theorem fallbackScan_closed (eng : Engine) (d : Dom) (root : ℕ) (L : List Sel)
    (acc : Detected) :
    fallbackScan eng d root acc L
      = ((L.filterMap (fun sel => (queryAllE eng d root sel).toOption)).join).foldl
          (bucketNode d) acc := by
  induction L generalizing acc with
  | nil => rfl
  | cons sel rest ih =>
    unfold fallbackScan
    cases hq : queryAllE eng d root sel with
    | error e =>
      dsimp only
      rw [ih acc]
      simp [List.filterMap_cons, hq, Except.toOption]
    | ok cs =>
      dsimp only
      rw [ih (cs.foldl (bucketNode d) acc)]
      simp [List.filterMap_cons, hq, Except.toOption, List.foldl_append]

/-- C9: `detectAllContainers` queries the primary carousel and browse
patterns first and, when either matches, returns exactly those nodes with an
empty unknown list; only when both are empty does it run the fallback
cascade, whose result buckets every node matched by a non-throwing fallback
pattern by the first non-empty of its carousel-card / browse-card /
inner-card descendant counts (the inner-card count is carried into
`unknown`), discarding nodes matching no card shape; a fallback pattern that
throws is skipped and the cascade continues with the remaining patterns. -/
theorem c9_detect :
    (∀ eng d root,
       ¬((queryAll d root carouselContainerSel).length = 0
          ∧ (queryAll d root browseContainerSel).length = 0) →
       detectAllContainers eng d root
         = { carousels := queryAll d root carouselContainerSel,
             browse := queryAll d root browseContainerSel, unknown := [] })
    ∧ (∀ eng d root,
        (queryAll d root carouselContainerSel).length = 0 →
        (queryAll d root browseContainerSel).length = 0 →
        detectAllContainers eng d root
          = { carousels :=
                (((containerFallbacks.filterMap
                    (fun sel => (queryAllE eng d root sel).toOption)).join).filter
                  (fun c => decide (0 < (queryAll d c carouselCardSel).length))),
              browse :=
                (((containerFallbacks.filterMap
                    (fun sel => (queryAllE eng d root sel).toOption)).join).filter
                  (fun c => !decide (0 < (queryAll d c carouselCardSel).length)
                      && decide (0 < (queryAll d c browseCardSel).length))),
              unknown :=
                ((((containerFallbacks.filterMap
                    (fun sel => (queryAllE eng d root sel).toOption)).join).filter
                  (fun c => !decide (0 < (queryAll d c carouselCardSel).length)
                      && !decide (0 < (queryAll d c browseCardSel).length)
                      && decide (0 < (queryAll d c innerCardSel).length))).map
                    (fun c => (c, (queryAll d c innerCardSel).length))) })
    ∧ (∀ eng d root acc sel rest, queryAllE eng d root sel = .error () →
        fallbackScan eng d root acc (sel :: rest) = fallbackScan eng d root acc rest) := by
  refine ⟨?_, ?_, ?_⟩
  · intro eng d root h
    unfold detectAllContainers
    rw [if_neg (by simpa [Decidable.not_and_iff_or_not] using h)]
  · intro eng d root h1 h2
    unfold detectAllContainers
    rw [if_pos (by simp [h1, h2])]
    rw [fallbackScan_closed]
    have hc := bucketFold_closed d
      (((containerFallbacks.filterMap
          (fun sel => (queryAllE eng d root sel).toOption)).join))
      { carousels := queryAll d root carouselContainerSel,
        browse := queryAll d root browseContainerSel, unknown := [] }
    rcases hc with ⟨hca, hbr, hun⟩
    have e1 : queryAll d root carouselContainerSel = [] := List.length_eq_zero.mp h1
    have e2 : queryAll d root browseContainerSel = [] := List.length_eq_zero.mp h2
    rw [e1, e2] at hca hbr hun ⊢
    cases hfold : (((containerFallbacks.filterMap
        (fun sel => (queryAllE eng d root sel).toOption)).join)).foldl (bucketNode d)
        { carousels := [], browse := [], unknown := [] }
    rw [hfold] at hca hbr hun
    simp only at hca hbr hun
    simp [hca, hbr, hun]
  · intro eng d root acc sel rest h
    conv_lhs => rw [fallbackScan]
    rw [h]

/-- C9 (witness): the primary-hit and fallback cases on concrete documents,
with the `:has` fallback selector throwing on an engine without support. -/
theorem c9_detect_witness :
    detectAllContainers engNoHas exDomPrimary 99
      = { carousels := [], browse := [0], unknown := [] }
    ∧ detectAllContainers engHas exDomScroller 99
      = { carousels := [],
          browse := [],
          unknown := [(0, 1)] }
    ∧ fallbackScan engNoHas exDomScroller 99
        { carousels := [], browse := [], unknown := [] }
        [.classSubstrsHas ["scroller"] (.classSubstrs ["card"])]
      = { carousels := [], browse := [], unknown := [] } := by
  refine ⟨?_, ?_, ?_⟩
  · rw [c9_detect.1 engNoHas exDomPrimary 99 (by decide)]
    decide
  · rw [c9_detect.2.1 engHas exDomScroller 99 (by decide) (by decide)]
    decide
  · rw [c9_detect.2.2 engNoHas exDomScroller 99
      { carousels := [], browse := [], unknown := [] }
      (.classSubstrsHas ["scroller"] (.classSubstrs ["card"])) [] rfl]
    rfl

/-! ## Claim C6: sorting a container is one-shot -/

theorem sortContainer_true_marker (eng : Engine) (s : St) (container : ℕ) (t : CType)
    (s' : St) (h : sortContainer eng s container t = (true, s')) :
    s'.processedContainers.contains container = true := by
  unfold sortContainer at h
  by_cases h1 : s.processedContainers.contains container = true
  · rw [if_pos h1] at h
    simp at h
  · rw [if_neg h1] at h
    cases hsel : resolveCardSel eng s.dom container t with
    | none =>
      rw [hsel] at h
      simp at h
    | some csel =>
      rw [hsel] at h
      dsimp only at h
      split at h
      · simp at h
      · split at h
        · simp at h
        · rw [Prod.mk.injEq] at h
          rw [← h.2]
          simp

/-- C6: if `sortContainer` performs a sort (returns `true`), it has set the
processed-container marker, so the second call on the same container returns
`false` and leaves the state — in particular the container's child list —
completely unchanged. -/
theorem c6_sort_once (eng : Engine) (s : St) (container : ℕ) (t : CType) (s' : St)
    (h : sortContainer eng s container t = (true, s')) :
    sortContainer eng s' container t = (false, s')
    ∧ kidsOf (sortContainer eng s' container t).2.dom container = kidsOf s'.dom container := by
  have hm := sortContainer_true_marker eng s container t s' h
  have h2 : sortContainer eng s' container t = (false, s') := by
    unfold sortContainer
    rw [if_pos hm]
  exact ⟨h2, by rw [h2]⟩

/-- C6 (witness): a successful concrete sort followed by a second call. -/
theorem c6_sort_once_witness :
    sortContainer engNoHas (sortContainer engNoHas (initSt exDomSort) 0 CType.browse).2
        0 CType.browse
      = (false, (sortContainer engNoHas (initSt exDomSort) 0 CType.browse).2) := by
  refine (c6_sort_once engNoHas (initSt exDomSort) 0 CType.browse _ ?_).1
  have h1 : (sortContainer engNoHas (initSt exDomSort) 0 CType.browse).1 = true := by
    decide
  rw [← h1, Prod.mk.eta]

/-! ## Structural (shape) lemmas

Class-based queries and child reads observe only the shape of the store;
annotation (under `TitleLeaves`) rewrites text without changing the shape. -/

theorem lookupE_shape (d d' : Dom) (hs : shapeOf d' = shapeOf d) (i : ℕ) :
    (lookupE d' i).map elemShape = (lookupE d i).map elemShape := by
  induction d generalizing d' with
  | nil =>
    have : d' = [] := by simpa [shapeOf] using hs
    subst this
    rfl
  | cons p t ih =>
    cases d' with
    | nil => simp [shapeOf] at hs
    | cons p' t' =>
      simp only [shapeOf, List.map_cons, List.cons.injEq, Prod.mk.injEq] at hs
      obtain ⟨⟨hkey, hshape⟩, htail⟩ := hs
      unfold lookupE
      rw [List.find?_cons, List.find?_cons, hkey]
      by_cases hi : (p.1 == i) = true
      · rw [hi]
        simpa using hshape
      · rw [Bool.not_eq_true] at hi
        rw [hi]
        exact ih t' htail

theorem shapeOf_length (d d' : Dom) (hs : shapeOf d' = shapeOf d) :
    d'.length = d.length := by
  have := congrArg List.length hs
  simpa [shapeOf] using this

theorem kidsOf_shape (d d' : Dom) (hs : shapeOf d' = shapeOf d) (i : ℕ) :
    kidsOf d' i = kidsOf d i := by
  have h := lookupE_shape d d' hs i
  unfold kidsOf
  cases h1 : lookupE d i with
  | none =>
    cases h2 : lookupE d' i with
    | none => rfl
    | some e' => rw [h1, h2] at h; simp at h
  | some e =>
    cases h2 : lookupE d' i with
    | none => rw [h1, h2] at h; simp at h
    | some e' =>
      rw [h1, h2] at h
      simp only [Option.map_some', Option.some.injEq, elemShape, Prod.mk.injEq] at h
      simp [h.2]

theorem classesOf_shape (d d' : Dom) (hs : shapeOf d' = shapeOf d) (i : ℕ) :
    classesOf d' i = classesOf d i := by
  have h := lookupE_shape d d' hs i
  unfold classesOf
  cases h1 : lookupE d i with
  | none =>
    cases h2 : lookupE d' i with
    | none => rfl
    | some e' => rw [h1, h2] at h; simp at h
  | some e =>
    cases h2 : lookupE d' i with
    | none => rw [h1, h2] at h; simp at h
    | some e' =>
      rw [h1, h2] at h
      simp only [Option.map_some', Option.some.injEq, elemShape, Prod.mk.injEq] at h
      simp [h.1]

theorem descAux_shape (d d' : Dom) (hs : shapeOf d' = shapeOf d) :
    ∀ fuel i, descAux d' fuel i = descAux d fuel i := by
  intro fuel
  induction fuel with
  | zero => intro i; rfl
  | succ fuel ih =>
    intro i
    have h := lookupE_shape d d' hs i
    unfold descAux
    cases h1 : lookupE d i with
    | none =>
      cases h2 : lookupE d' i with
      | none => rfl
      | some e' => rw [h1, h2] at h; simp at h
    | some e =>
      cases h2 : lookupE d' i with
      | none => rw [h1, h2] at h; simp at h
      | some e' =>
        rw [h1, h2] at h
        simp only [Option.map_some', Option.some.injEq, elemShape, Prod.mk.injEq] at h
        dsimp only
        rw [h.2]
        have hfun : (fun k => k :: descAux d' fuel k) = (fun k => k :: descAux d fuel k) :=
          funext fun k => by rw [ih k]
        rw [hfun]

theorem descendants_shape (d d' : Dom) (hs : shapeOf d' = shapeOf d) (i : ℕ) :
    descendants d' i = descendants d i := by
  unfold descendants
  rw [shapeOf_length d d' hs]
  exact descAux_shape d d' hs _ i

theorem matchB_shape (d d' : Dom) (hs : shapeOf d' = shapeOf d) (j : ℕ) :
    ∀ sel, matchB d' j sel = matchB d j sel := by
  intro sel
  induction sel generalizing j with
  | classTok c =>
    have h := lookupE_shape d d' hs j
    unfold matchB
    cases h1 : lookupE d j with
    | none =>
      cases h2 : lookupE d' j with
      | none => rfl
      | some e' => rw [h1, h2] at h; simp at h
    | some e =>
      cases h2 : lookupE d' j with
      | none => rw [h1, h2] at h; simp at h
      | some e' =>
        rw [h1, h2] at h
        simp only [Option.map_some', Option.some.injEq, elemShape, Prod.mk.injEq] at h
        dsimp only
        rw [h.1]
  | classSubstrs subs =>
    have h := lookupE_shape d d' hs j
    unfold matchB
    cases h1 : lookupE d j with
    | none =>
      cases h2 : lookupE d' j with
      | none => rfl
      | some e' => rw [h1, h2] at h; simp at h
    | some e =>
      cases h2 : lookupE d' j with
      | none => rw [h1, h2] at h; simp at h
      | some e' =>
        rw [h1, h2] at h
        simp only [Option.map_some', Option.some.injEq, elemShape, Prod.mk.injEq] at h
        dsimp only
        rw [h.1]
  | classSubstrsHas subs inner ihInner =>
    have h := lookupE_shape d d' hs j
    unfold matchB
    rw [descendants_shape d d' hs j]
    have hany : ((descendants d j).any fun k => matchB d' k inner)
        = ((descendants d j).any fun k => matchB d k inner) := by
      have : (fun k => matchB d' k inner) = (fun k => matchB d k inner) :=
        funext fun k => ihInner k
      rw [this]
    rw [hany]
    cases h1 : lookupE d j with
    | none =>
      cases h2 : lookupE d' j with
      | none => rfl
      | some e' => rw [h1, h2] at h; simp at h
    | some e =>
      cases h2 : lookupE d' j with
      | none => rw [h1, h2] at h; simp at h
      | some e' =>
        rw [h1, h2] at h
        simp only [Option.map_some', Option.some.injEq, elemShape, Prod.mk.injEq] at h
        dsimp only
        rw [h.1]

theorem queryAll_shape (d d' : Dom) (hs : shapeOf d' = shapeOf d) (root : ℕ) (sel : Sel) :
    queryAll d' root sel = queryAll d root sel := by
  unfold queryAll
  rw [descendants_shape d d' hs root]
  exact List.filter_congr fun j _ => matchB_shape d d' hs j sel

theorem queryAllE_shape (eng : Engine) (d d' : Dom) (hs : shapeOf d' = shapeOf d)
    (root : ℕ) (sel : Sel) : queryAllE eng d' root sel = queryAllE eng d root sel := by
  unfold queryAllE
  rw [descendants_shape d d' hs root]
  by_cases hv : selValid eng sel = true
  · rw [if_pos hv, if_pos hv]
    congr 1
    exact List.filter_congr fun j _ => matchB_shape d d' hs j sel
  · rw [if_neg hv, if_neg hv]

theorem querySel_shape (d d' : Dom) (hs : shapeOf d' = shapeOf d) (root : ℕ) (sel : Sel) :
    querySel d' root sel = querySel d root sel := by
  unfold querySel
  rw [descendants_shape d d' hs root]
  have : (fun j => matchB d' j sel) = (fun j => matchB d j sel) :=
    funext fun j => matchB_shape d d' hs j sel
  rw [this]

theorem keys_eq_shape (d d' : Dom) (hs : shapeOf d' = shapeOf d) :
    d'.map (·.1) = d.map (·.1) := by
  have h1 : (shapeOf d').map (·.1) = (shapeOf d).map (·.1) := congrArg _ hs
  simpa [shapeOf, List.map_map, Function.comp] using h1

theorem KeysNodup_shape (d d' : Dom) (hs : shapeOf d' = shapeOf d)
    (h : KeysNodup d) : KeysNodup d' := by
  unfold KeysNodup at *
  rw [keys_eq_shape d d' hs]
  exact h

theorem kidsLists_eq_shape (d d' : Dom) (hs : shapeOf d' = shapeOf d) :
    d'.map (fun p => p.2.kids) = d.map (fun p => p.2.kids) := by
  have h1 : (shapeOf d').map (fun q => q.2.2) = (shapeOf d).map (fun q => q.2.2) :=
    congrArg _ hs
  simpa [shapeOf, List.map_map, Function.comp, elemShape] using h1

theorem PairDisjoint_shape (d d' : Dom) (hs : shapeOf d' = shapeOf d)
    (h : PairDisjoint d) : PairDisjoint d' := by
  unfold PairDisjoint at *
  rw [kidsLists_eq_shape d d' hs]
  exact h

theorem TitleLeaves_shape (d d' : Dom) (hs : shapeOf d' = shapeOf d)
    (h : TitleLeaves d) : TitleLeaves d' := by
  intro p' hp' hc
  have hmem : (p'.1, elemShape p'.2) ∈ shapeOf d' := List.mem_map_of_mem _ hp'
  rw [hs] at hmem
  obtain ⟨p, hp, heq⟩ := List.mem_map.mp hmem
  simp only [Prod.mk.injEq, elemShape] at heq
  have hcls : p'.2.classes = p.2.classes := heq.2.1.symm
  have hkds : p'.2.kids = p.2.kids := heq.2.2.symm
  rw [hkds]
  exact h p hp (by rw [← hcls]; exact hc)

theorem lookupE_entry_mem (d : Dom) (i : ℕ) (e : Elem) (h : lookupE d i = some e) :
    (i, e) ∈ d := by
  unfold lookupE at h
  cases hf : d.find? (fun p => p.1 == i) with
  | none => rw [hf] at h; cases h
  | some p =>
    rw [hf] at h
    have hp := List.find?_some hf
    have hmem := List.mem_of_find?_eq_some hf
    simp only [Option.map_some', Option.some.injEq] at h
    have : p.1 = i := by simpa using hp
    rw [← h, ← this]
    exact hmem

theorem mapIf_id (t : Dom) (i : ℕ) (f : (ℕ × Elem) → (ℕ × Elem))
    (h : ∀ q ∈ t, (q.1 == i) = false) :
    t.map (fun p => if p.1 == i then f p else p) = t := by
  induction t with
  | nil => rfl
  | cons q t ih =>
    simp only [List.map_cons, h q (List.mem_cons_self _ _), Bool.false_eq_true, if_false]
    rw [ih (fun q' hq' => h q' (List.mem_cons_of_mem _ hq'))]

theorem setTextContent_shape (d : Dom) (i : ℕ) (str : String) (e : Elem)
    (hk : KeysNodup d) (he : lookupE d i = some e) (hkids : e.kids = []) :
    shapeOf (setTextContent d i str) = shapeOf d := by
  induction d with
  | nil => rfl
  | cons p t ih =>
    unfold KeysNodup at hk
    simp only [List.map_cons, List.nodup_cons] at hk
    by_cases hp : (p.1 == i) = true
    · have hpe : p.2 = e := by
        unfold lookupE at he
        rw [List.find?_cons, hp] at he
        simpa using he
      have htail : t.map (fun q => if q.1 == i then (q.1, { q.2 with text := str, kids := [] }) else q) = t := by
        refine mapIf_id t i _ ?_
        intro q hq
        rw [Bool.eq_false_iff]
        intro hqi
        exact hk.1 (by
          have : q.1 = i := by simpa using hqi
          have hpi : p.1 = i := by simpa using hp
          rw [hpi, ← this]
          exact List.mem_map_of_mem _ hq)
      unfold setTextContent
      simp only [List.map_cons, hp, if_true]
      unfold shapeOf
      simp only [List.map_cons, List.cons.injEq]
      constructor
      · simp [elemShape, hpe, hkids]
      · rw [htail]
    · have hp' : (p.1 == i) = false := by rwa [Bool.not_eq_true] at hp
      have he' : lookupE t i = some e := by
        unfold lookupE at he ⊢
        simp only [List.find?_cons, hp'] at he
        exact he
      unfold setTextContent at ih ⊢
      simp only [List.map_cons, hp', Bool.false_eq_true, if_false]
      unfold shapeOf at ih ⊢
      simp only [List.map_cons, List.cons.injEq]
      exact ⟨trivial, ih hk.2 he'⟩

theorem contains_mem {l : List String} {c : String} (h : l.contains c = true) : c ∈ l := by
  simpa using h

theorem addRatingToTitle_shape (s : St) (card : ℕ)
    (hk : KeysNodup s.dom) (hl : TitleLeaves s.dom) :
    shapeOf ((addRatingToTitle s card).2).dom = shapeOf s.dom := by
  unfold addRatingToTitle
  by_cases h1 : s.processedCards.contains card = true
  · rw [if_pos h1]
  · rw [if_neg h1]
    cases ht : querySel s.dom card titleSel with
    | none => rfl
    | some t =>
      dsimp only
      by_cases h2 : (jsEqNum (extractRatingData s.dom card).rating (jsInt 0)
          && !s.hasFoundCards) = true
      · rw [if_pos h2]
      · rw [if_neg h2]
        by_cases h3 : (jsGtNum (extractRatingData s.dom card).rating (jsInt 0)
            && !strIncludes (textContent s.dom t)
              ("(" ++ jsNumToString (extractRatingData s.dom card).rating ++ ")")) = true
        · rw [if_pos h3]
          have ht' : (descendants s.dom card).find? (fun j => matchB s.dom j titleSel)
              = some t := ht
          have hmatch0 := List.find?_some ht'
          have hmatch : matchB s.dom t titleSel = true := hmatch0
          unfold matchB titleSel at hmatch
          cases hlk : lookupE s.dom t with
          | none => rw [hlk] at hmatch; cases hmatch
          | some e =>
            rw [hlk] at hmatch
            have hmem := lookupE_entry_mem s.dom t e hlk
            have hkids : e.kids = [] := hl (t, e) hmem hmatch
            exact setTextContent_shape s.dom t _ e hk hlk hkids
        · rw [if_neg h3]

theorem processCard_shape (s : St) (card : ℕ)
    (hk : KeysNodup s.dom) (hl : TitleLeaves s.dom) :
    shapeOf ((processCard s card).1).dom = shapeOf s.dom := by
  unfold processCard
  exact addRatingToTitle_shape s _ hk hl

theorem processCards_shape (cards : List ℕ) (s : St)
    (hk : KeysNodup s.dom) (hl : TitleLeaves s.dom) :
    shapeOf ((processCards s cards).1).dom = shapeOf s.dom := by
  suffices h : ∀ acc : St × List Item, KeysNodup acc.1.dom → TitleLeaves acc.1.dom →
      shapeOf ((cards.foldl (fun acc card =>
        let r := processCard acc.1 card
        (r.1, acc.2 ++ [r.2])) acc).1).dom = shapeOf acc.1.dom by
    exact h (s, []) hk hl
  induction cards with
  | nil => intro acc _ _; rfl
  | cons c rest ih =>
    intro acc hk1 hl1
    simp only [List.foldl_cons]
    have h1 : shapeOf ((processCard acc.1 c).1).dom = shapeOf acc.1.dom :=
      processCard_shape acc.1 c hk1 hl1
    have hk2 : KeysNodup ((processCard acc.1 c).1).dom :=
      KeysNodup_shape _ _ h1 hk1
    have hl2 : TitleLeaves ((processCard acc.1 c).1).dom :=
      TitleLeaves_shape _ _ h1 hl1
    have h2 := ih ((processCard acc.1 c).1, acc.2 ++ [(processCard acc.1 c).2]) hk2 hl2
    exact h2.trans h1

/-! ## The reorder block -/

theorem lookupE_mapSnd (g : Elem → Elem) (d : Dom) (i : ℕ) :
    lookupE (d.map (fun p => (p.1, g p.2))) i = (lookupE d i).map g := by
  induction d with
  | nil => rfl
  | cons p t ih =>
    unfold lookupE at ih ⊢
    simp only [List.map_cons, List.find?_cons]
    by_cases hp : (p.1 == i) = true
    · rw [hp]
      rfl
    · rw [Bool.not_eq_true] at hp
      rw [hp]
      exact ih

theorem lookupE_mapIf (f : Elem → Elem) (d : Dom) (c i : ℕ) :
    lookupE (d.map (fun p => if p.1 == c then (p.1, f p.2) else p)) i
      = if i = c then (lookupE d i).map f else lookupE d i := by
  induction d with
  | nil => simp [lookupE]
  | cons p t ih =>
    unfold lookupE at ih ⊢
    simp only [List.map_cons]
    by_cases hpc : (p.1 == c) = true
    · rw [hpc]
      simp only [if_true]
      by_cases hpi : (p.1 == i) = true
      · have hic : i = c := by
          have h1 : p.1 = c := by simpa using hpc
          have h2 : p.1 = i := by simpa using hpi
          omega
        rw [if_pos hic]
        rw [List.find?_cons, List.find?_cons]
        simp only [hpi]
        rfl
      · rw [Bool.not_eq_true] at hpi
        rw [List.find?_cons, List.find?_cons]
        simp only [hpi]
        exact ih
    · rw [Bool.not_eq_true] at hpc
      rw [hpc]
      simp only [Bool.false_eq_true, if_false]
      by_cases hpi : (p.1 == i) = true
      · have hic : ¬(i = c) := by
          intro hic
          subst hic
          have h2 : p.1 = i := by simpa using hpi
          rw [h2] at hpc
          simp at hpc
        rw [if_neg hic]
        rw [List.find?_cons, List.find?_cons]
        simp only [hpi]
      · rw [Bool.not_eq_true] at hpi
        rw [List.find?_cons, List.find?_cons]
        simp only [hpi]
        exact ih

theorem detach_lookup (d : Dom) (x i : ℕ) :
    lookupE (detach d x) i
      = (lookupE d i).map (fun e => { e with kids := e.kids.filter (fun k => k ≠ x) }) := by
  unfold detach
  exact lookupE_mapSnd
    (fun e => { e with kids := e.kids.filter (fun k => k ≠ x) }) d i

theorem appendKids_lookup (d : Dom) (c : ℕ) (frag : List ℕ) (i : ℕ) :
    lookupE (appendKids d c frag) i
      = if i = c then (lookupE d i).map (fun e => { e with kids := e.kids ++ frag })
        else lookupE d i := by
  unfold appendKids
  exact lookupE_mapIf (fun e => { e with kids := e.kids ++ frag }) d c i

theorem detachList_lookup (xs : List ℕ) (d : Dom) (i : ℕ) :
    lookupE (detachList d xs) i
      = (lookupE d i).map
          (fun e => { e with kids := e.kids.filter (fun k => !xs.contains k) }) := by
  induction xs generalizing d with
  | nil =>
    unfold detachList
    simp only [List.foldl_nil]
    cases h : lookupE d i with
    | none => rfl
    | some e => simp [List.filter_eq_self.mpr]
  | cons x xs ih =>
    unfold detachList at ih ⊢
    simp only [List.foldl_cons]
    rw [ih (detach d x), detach_lookup]
    cases h : lookupE d i with
    | none => rfl
    | some e =>
      simp only [Option.map_some', List.filter_filter]
      have hpred : (fun a => !xs.contains a && decide (a ≠ x))
          = (fun k => !(x :: xs).contains k) := by
        funext k
        by_cases hk : k = x
        · subst hk
          simp
        · simp [hk, List.contains_cons]
      rw [hpred]

theorem parentOf_unique (d : Dom) (container card : ℕ) (e : Elem)
    (hpd : PairDisjoint d) (he : lookupE d container = some e) (hc : card ∈ e.kids) :
    parentOf d card = some container := by
  induction d with
  | nil => cases he
  | cons p t ih =>
    unfold PairDisjoint at hpd
    simp only [List.map_cons, List.pairwise_cons] at hpd
    obtain ⟨hdisj, hpd'⟩ := hpd
    unfold parentOf
    rw [List.find?_cons]
    by_cases hp : (p.1 == container) = true
    · have hpe : p.2 = e := by
        unfold lookupE at he
        simp only [List.find?_cons, hp] at he
        simpa using he
      have hcon : p.2.kids.contains card = true := by
        rw [hpe]
        simpa using hc
      rw [hcon]
      simp only [Option.map_some']
      have : p.1 = container := by simpa using hp
      rw [this]
    · have hp' : (p.1 == container) = false := by rwa [Bool.not_eq_true] at hp
      have he' : lookupE t container = some e := by
        unfold lookupE at he ⊢
        simp only [List.find?_cons, hp'] at he
        exact he
      have hker : p.2.kids.contains card = false := by
        rw [Bool.eq_false_iff]
        intro hcon
        have hmemt := lookupE_entry_mem t container e he'
        have hkmem : e.kids ∈ t.map (fun q => q.2.kids) :=
          List.mem_map_of_mem _ hmemt
        exact hdisj e.kids hkmem (by simpa using hcon) hc
      rw [hker]
      have hrec := ih hpd' he'
      unfold parentOf at hrec
      exact hrec

theorem PairDisjoint_detach (d : Dom) (x : ℕ) (h : PairDisjoint d) :
    PairDisjoint (detach d x) := by
  unfold PairDisjoint detach at *
  rw [List.map_map]
  rw [List.pairwise_map] at h ⊢
  refine h.imp ?_
  intro a b hab
  intro k hk1 hk2
  exact hab (List.mem_of_mem_filter hk1) (List.mem_of_mem_filter hk2)

theorem PairDisjoint_detachList (xs : List ℕ) (d : Dom) (h : PairDisjoint d) :
    PairDisjoint (detachList d xs) := by
  induction xs generalizing d with
  | nil => exact h
  | cons x xs ih =>
    unfold detachList at ih ⊢
    simp only [List.foldl_cons]
    exact ih (detach d x) (PairDisjoint_detach d x h)

theorem pairDisjoint_entries (d : Dom) (hpd : PairDisjoint d) (i1 i2 : ℕ)
    (e1 e2 : Elem) (h1 : lookupE d i1 = some e1) (h2 : lookupE d i2 = some e2)
    (hne : i1 ≠ i2) : List.Disjoint e1.kids e2.kids := by
  induction d with
  | nil => cases h1
  | cons p t ih =>
    unfold PairDisjoint at hpd
    simp only [List.map_cons, List.pairwise_cons] at hpd
    obtain ⟨hdisj, hpd'⟩ := hpd
    by_cases hp1 : (p.1 == i1) = true
    · have hpe : p.2 = e1 := by
        unfold lookupE at h1
        simp only [List.find?_cons, hp1] at h1
        simpa using h1
      have hp2 : (p.1 == i2) = false := by
        rw [Bool.eq_false_iff]
        intro hb
        have a1 : p.1 = i1 := by simpa using hp1
        have a2 : p.1 = i2 := by simpa using hb
        exact hne (a1 ▸ a2)
      have h2' : lookupE t i2 = some e2 := by
        unfold lookupE at h2 ⊢
        simp only [List.find?_cons, hp2] at h2
        exact h2
      have hkmem : e2.kids ∈ t.map (fun q => q.2.kids) :=
        List.mem_map_of_mem _ (lookupE_entry_mem t i2 e2 h2')
      rw [← hpe]
      exact hdisj e2.kids hkmem
    · have hp1' : (p.1 == i1) = false := by rwa [Bool.not_eq_true] at hp1
      have h1' : lookupE t i1 = some e1 := by
        unfold lookupE at h1 ⊢
        simp only [List.find?_cons, hp1'] at h1
        exact h1
      by_cases hp2 : (p.1 == i2) = true
      · have hpe : p.2 = e2 := by
          unfold lookupE at h2
          simp only [List.find?_cons, hp2] at h2
          simpa using h2
        have hkmem : e1.kids ∈ t.map (fun q => q.2.kids) :=
          List.mem_map_of_mem _ (lookupE_entry_mem t i1 e1 h1')
        rw [← hpe]
        exact (hdisj e1.kids hkmem).symm
      · have hp2' : (p.1 == i2) = false := by rwa [Bool.not_eq_true] at hp2
        have h2' : lookupE t i2 = some e2 := by
          unfold lookupE at h2 ⊢
          simp only [List.find?_cons, hp2'] at h2
          exact h2
        exact ih hpd' h1' h2'

theorem phase1_fold (xs : List ℕ) (d : Dom) (fr : List ℕ) :
    xs.foldl (fun acc x => fragPush acc.1 acc.2 x) (d, fr)
      = (detachList d xs, fr ++ xs) := by
  induction xs generalizing d fr with
  | nil => simp [detachList]
  | cons x xs ih =>
    simp only [List.foldl_cons]
    have hstep : fragPush d fr x = (detach d x, fr ++ [x]) := rfl
    rw [hstep, ih (detach d x) (fr ++ [x])]
    unfold detachList
    simp

theorem phase2_fold (container : ℕ) (e : Elem) (ratedElems : List ℕ) (d : Dom)
    (hpd : PairDisjoint d) (he : lookupE d container = some e) :
    ∀ (cs moved0 : List ℕ), cs.Nodup →
    (∀ c ∈ cs, ratedElems.contains c = false →
       c ∈ e.kids ∧ moved0.contains c = false) →
    cs.foldl (fun acc card =>
        if ratedElems.contains card then acc
        else if parentOf acc.1 card == some container then fragPush acc.1 acc.2 card
        else acc) (detachList d moved0, moved0)
      = (detachList d (moved0 ++ cs.filter (fun c => !ratedElems.contains c)),
         moved0 ++ cs.filter (fun c => !ratedElems.contains c)) := by
  intro cs
  induction cs with
  | nil =>
    intro moved0 _ _
    simp
  | cons c rest ih =>
    intro moved0 hnd hmem
    simp only [List.foldl_cons, List.filter_cons]
    by_cases hr : ratedElems.contains c = true
    · rw [if_pos hr]
      have := ih moved0 (List.nodup_cons.mp hnd).2
        (fun c' hc' hr' => hmem c' (List.mem_cons_of_mem _ hc') hr')
      rw [this, hr]
      simp
    · have hr' : ratedElems.contains c = false := by
        rw [Bool.eq_false_iff]
        exact hr
      rw [if_neg hr]
      obtain ⟨hck, hcm⟩ := hmem c (List.mem_cons_self _ _) hr'
      have hlk : lookupE (detachList d moved0) container
          = some { e with kids := e.kids.filter (fun k => !moved0.contains k) } := by
        rw [detachList_lookup, he]
        rfl
      have hcmem : c ∈ (({ e with kids := e.kids.filter (fun k => !moved0.contains k) }
          : Elem)).kids := by
        simp only [List.mem_filter]
        exact ⟨hck, by simpa using hcm⟩
      have hpar : parentOf (detachList d moved0) c = some container :=
        parentOf_unique _ container c _ (PairDisjoint_detachList moved0 d hpd) hlk hcmem
      rw [hpar]
      simp only [beq_self_eq_true, if_true]
      have hstep : fragPush (detachList d moved0) moved0 c
          = (detachList d (moved0 ++ [c]), moved0 ++ [c]) := by
        unfold fragPush detachList
        rw [List.foldl_append]
        rfl
      rw [hstep]
      have hmem' : ∀ c' ∈ rest, ratedElems.contains c' = false →
          c' ∈ e.kids ∧ (moved0 ++ [c]).contains c' = false := by
        intro c' hc' hr2
        obtain ⟨h1, h2⟩ := hmem c' (List.mem_cons_of_mem _ hc') hr2
        refine ⟨h1, ?_⟩
        have hne : c' ≠ c := by
          intro hcc
          subst hcc
          exact (List.nodup_cons.mp hnd).1 hc'
        have h2' : c' ∉ moved0 := by simpa using h2
        simp [h2', hne]
      have := ih (moved0 ++ [c]) (List.nodup_cons.mp hnd).2 hmem'
      rw [this, hr']
      simp

theorem reorderDom_spec (d : Dom) (container : ℕ) (cards ratedElems : List ℕ) (e : Elem)
    (hpd : PairDisjoint d) (he : lookupE d container = some e)
    (hnd : cards.Nodup)
    (hsub : ∀ c ∈ cards, c ∈ e.kids)
    (hrs : ∀ x ∈ ratedElems, x ∈ cards) :
    (lookupE (reorderDom d container cards ratedElems) container
       = some { e with kids :=
           e.kids.filter (fun k =>
             !((ratedElems ++ cards.filter (fun c => !ratedElems.contains c)).contains k))
           ++ (ratedElems ++ cards.filter (fun c => !ratedElems.contains c)) })
    ∧ ∀ j, j ≠ container →
        lookupE (reorderDom d container cards ratedElems) j = lookupE d j := by
  unfold reorderDom
  rw [phase1_fold]
  simp only [List.nil_append]
  rw [phase2_fold container e ratedElems d hpd he cards ratedElems hnd
    (fun c hc hr => ⟨hsub c hc, hr⟩)]
  set moved := ratedElems ++ cards.filter (fun c => !ratedElems.contains c) with hmoved
  have hmsub : ∀ x ∈ moved, x ∈ e.kids := by
    intro x hx
    rw [hmoved] at hx
    rcases List.mem_append.mp hx with hx | hx
    · exact hsub x (hrs x hx)
    · exact hsub x (List.mem_of_mem_filter hx)
  constructor
  · rw [appendKids_lookup]
    rw [if_pos rfl, detachList_lookup, he]
    rfl
  · intro j hj
    rw [appendKids_lookup, if_neg hj, detachList_lookup]
    cases hlj : lookupE d j with
    | none => rfl
    | some ej =>
      simp only [Option.map_some']
      have hdisj : List.Disjoint ej.kids e.kids :=
        pairDisjoint_entries d hpd j container ej e hlj he hj
      have : ej.kids.filter (fun k => !moved.contains k) = ej.kids := by
        rw [List.filter_eq_self]
        intro a ha
        have : a ∉ e.kids := fun hae => hdisj ha hae
        have hnm : a ∉ moved := by
          intro hcon
          exact this (hmsub a hcon)
        simp [hnm]
      rw [this]

theorem filter_append_perm (M : List ℕ) : ∀ (K : List ℕ), K.Nodup → M.Nodup →
    (∀ x ∈ M, x ∈ K) →
    List.Perm (K.filter (fun k => !M.contains k) ++ M) K := by
  induction M with
  | nil =>
    intro K _ _ _
    simp
  | cons m M ih =>
    intro K hK hM hsub
    have hmK : m ∈ K := hsub m (List.mem_cons_self _ _)
    obtain ⟨hmM, hM'⟩ := List.nodup_cons.mp hM
    have h1 : K.filter (fun k => !(m :: M).contains k)
        = (K.erase m).filter (fun k => !M.contains k) := by
      rw [List.Nodup.erase_eq_filter hK, List.filter_filter]
      refine List.filter_congr ?_
      intro k _
      by_cases hk : k = m
      · subst hk
        simp [List.contains_cons]
      · simp [hk, List.contains_cons]
    rw [h1]
    refine List.Perm.trans List.perm_middle ?_
    refine List.Perm.trans ?_ (List.perm_cons_erase hmK).symm
    refine List.Perm.cons m ?_
    refine ih (K.erase m) (hK.erase m) hM' ?_
    intro x hx
    have hxm : x ≠ m := fun hxe => hmM (hxe ▸ hx)
    rw [List.mem_erase_of_ne hxm]
    exact hsub x (List.mem_cons_of_mem _ hx)

theorem processCards_elements (cards : List ℕ) (s : St) :
    ((processCards s cards).2).map (·.element) = cards := by
  suffices h : ∀ (acc : St × List Item),
      (((cards.foldl (fun acc card =>
          let r := processCard acc.1 card
          (r.1, acc.2 ++ [r.2])) acc).2).map (·.element))
        = acc.2.map (·.element) ++ cards by
    exact h (s, [])
  induction cards with
  | nil =>
    intro acc
    simp
  | cons c rest ih =>
    intro acc
    simp only [List.foldl_cons]
    rw [ih]
    simp [processCard]

/-- C1 (counterexample): in `exDomStray`, the resolved browse cards are `1`
(a child of container `0`) and the higher-rated `2`, whose parent is the
wrapper `5`, not the container.  `sortContainer` performs the reorder and
appends the rated card `2` into the container anyway: the container's child
multiset changes from `{1, 5}` to `{5, 2, 1}` — a rated card whose parent is
no longer the container is re-parented, not skipped, and child identity is
not preserved. -/
theorem c1_counterexample :
    (sortContainer engNoHas (initSt exDomStray) 0 CType.browse).1 = true
    ∧ kidsOf exDomStray 0 = [1, 5]
    ∧ parentOf exDomStray 2 = some 5
    ∧ kidsOf (sortContainer engNoHas (initSt exDomStray) 0 CType.browse).2.dom 0
        = [5, 2, 1]
    ∧ ¬ List.Perm
        (kidsOf (sortContainer engNoHas (initSt exDomStray) 0 CType.browse).2.dom 0)
        (kidsOf exDomStray 0) := by
  refine ⟨by decide, by decide, by decide, by decide, ?_⟩
  intro h
  have := h.length_eq
  revert this
  decide

/-- C1 (amended): when every resolved card is currently a child of the
container (and the store is well-formed: distinct keys, disjoint child lists,
title elements leaves, distinct container children), a reorder performed by
`sortContainer` preserves the multiset of the container's child identities,
changes no other node's child list, and changes no node's classes.  Without
that hypothesis the guarantee fails: unrated cards whose parent is no longer
the container are skipped, but rated cards are appended unconditionally (see
the counterexample). -/
theorem c1_amended (eng : Engine) (s : St) (container : ℕ) (t : CType) (s' : St)
    (e : Elem) (csel : Sel) (cards : List ℕ)
    (hkeys : KeysNodup s.dom) (hpd : PairDisjoint s.dom) (hleaf : TitleLeaves s.dom)
    (he : lookupE s.dom container = some e) (hKnd : e.kids.Nodup)
    (hsel : resolveCardSel eng s.dom container t = some csel)
    (hq : queryAllE eng s.dom container csel = .ok cards)
    (hnd : cards.Nodup) (hsub : ∀ c ∈ cards, c ∈ e.kids)
    (hrun : sortContainer eng s container t = (true, s')) :
    List.Perm (kidsOf s'.dom container) (kidsOf s.dom container)
    ∧ (∀ j, j ≠ container → kidsOf s'.dom j = kidsOf s.dom j)
    ∧ (∀ j, classesOf s'.dom j = classesOf s.dom j) := by
  unfold sortContainer at hrun
  by_cases h1 : s.processedContainers.contains container = true
  · rw [if_pos h1] at hrun
    simp at hrun
  · rw [if_neg h1, hsel] at hrun
    dsimp only at hrun
    rw [hq] at hrun
    dsimp only at hrun
    split at hrun
    · simp at hrun
    split at hrun
    · simp at hrun
    rw [Prod.mk.injEq] at hrun
    obtain ⟨-, hs'⟩ := hrun
    have hshape : shapeOf ((processCards s cards).1).dom = shapeOf s.dom :=
      processCards_shape cards s hkeys hleaf
    have hpd1 : PairDisjoint ((processCards s cards).1).dom :=
      PairDisjoint_shape _ _ hshape hpd
    have hlook := lookupE_shape s.dom ((processCards s cards).1).dom hshape container
    rw [he] at hlook
    cases hle1 : lookupE ((processCards s cards).1).dom container with
    | none => rw [hle1] at hlook; simp at hlook
    | some e1 =>
    rw [hle1] at hlook
    simp only [Option.map_some', Option.some.injEq, elemShape, Prod.mk.injEq] at hlook
    have hsub1 : ∀ c ∈ cards, c ∈ e1.kids := by
      intro c hc
      rw [hlook.2]
      exact hsub c hc
    have hrs : ∀ x ∈ (jsSortCards ((processCards s cards).2.filter
        (fun it => jsGtNum it.rating (jsInt 0)))).map (·.element), x ∈ cards := by
      intro x hx
      obtain ⟨it, hit, hxe⟩ := List.mem_map.mp hx
      have hit' := (jsSortCards_perm _).mem_iff.mp hit
      have hit2 := List.mem_of_mem_filter hit'
      have hmemel : it.element ∈ ((processCards s cards).2).map (·.element) :=
        List.mem_map_of_mem _ hit2
      rw [processCards_elements cards s] at hmemel
      rw [← hxe]
      exact hmemel
    have hspec := reorderDom_spec ((processCards s cards).1).dom container cards
      ((jsSortCards ((processCards s cards).2.filter
        (fun it => jsGtNum it.rating (jsInt 0)))).map (·.element)) e1 hpd1 hle1 hnd hsub1 hrs
    have hreNd : ((jsSortCards ((processCards s cards).2.filter
        (fun it => jsGtNum it.rating (jsInt 0)))).map (·.element)).Nodup := by
      have hsubl : ((((processCards s cards).2).filter
          (fun it => jsGtNum it.rating (jsInt 0))).map (·.element)).Sublist
          (((processCards s cards).2).map (·.element)) :=
        (List.filter_sublist _).map _
      have hnd2 : (((processCards s cards).2).map (·.element)).Nodup := by
        rw [processCards_elements cards s]
        exact hnd
      have hnd3 := hsubl.nodup hnd2
      have hperm := (jsSortCards_perm (((processCards s cards).2).filter
        (fun it => jsGtNum it.rating (jsInt 0)))).map (·.element)
      exact (hperm.nodup_iff).mpr hnd3
    set ratedElems := ((jsSortCards ((processCards s cards).2.filter
      (fun it => jsGtNum it.rating (jsInt 0)))).map (·.element)) with hreDef
    set moved := ratedElems ++ cards.filter (fun c => !ratedElems.contains c) with hmovedDef
    have hmovedNd : moved.Nodup := by
      rw [hmovedDef, List.nodup_append]
      refine ⟨hreNd, hnd.filter _, ?_⟩
      intro x hx hxf
      have hnc := (List.mem_filter.mp hxf).2
      simp only [Bool.not_eq_true'] at hnc
      have : x ∉ ratedElems := by simpa using hnc
      exact this hx
    have hmsub : ∀ x ∈ moved, x ∈ e1.kids := by
      intro x hx
      rw [hmovedDef] at hx
      rcases List.mem_append.mp hx with hx | hx
      · exact hsub1 x (hrs x hx)
      · exact hsub1 x (List.mem_of_mem_filter hx)
    have hdom : s'.dom = reorderDom ((processCards s cards).1).dom container cards
        ratedElems := by
      rw [← hs']
    refine ⟨?_, ?_, ?_⟩
    · rw [hdom]
      unfold kidsOf
      rw [hspec.1, he]
      simp only [Option.map_some', Option.getD_some]
      have hK1 : e1.kids.Nodup := by rw [hlook.2]; exact hKnd
      have hperm := filter_append_perm moved e1.kids hK1 hmovedNd hmsub
      rw [hlook.2] at hperm
      rw [← hlook.2]
      exact hlook.2 ▸ hperm
    · intro j hj
      rw [hdom]
      unfold kidsOf
      rw [hspec.2 j hj]
      have := kidsOf_shape s.dom ((processCards s cards).1).dom hshape j
      unfold kidsOf at this
      exact this
    · intro j
      rw [hdom]
      by_cases hj : j = container
      · subst hj
        unfold classesOf
        rw [hspec.1, he]
        simp only [Option.map_some', Option.getD_some]
        exact hlook.1
      · unfold classesOf
        rw [hspec.2 j hj]
        have := classesOf_shape s.dom ((processCards s cards).1).dom hshape j
        unfold classesOf at this
        exact this

/-- C1 (witness): the amended theorem applied to the concrete sort of
`exDomSort`, whose four cards are all children of the container. -/
theorem c1_amended_witness :
    List.Perm
      (kidsOf (sortContainer engNoHas (initSt exDomSort) 0 CType.browse).2.dom 0)
      (kidsOf exDomSort 0) := by
  refine (c1_amended engNoHas (initSt exDomSort) 0 CType.browse
    (sortContainer engNoHas (initSt exDomSort) 0 CType.browse).2
    ⟨["erc-browse-cards-collection"], "", [1, 2, 3, 4]⟩ browseCardSel [1, 2, 3, 4]
    (by decide) (by decide) (by decide) (by decide) (by decide) (by decide) rfl
    (by decide) (by decide) ?_).1
  have h1 : (sortContainer engNoHas (initSt exDomSort) 0 CType.browse).1 = true := by
    decide
  rw [← h1, Prod.mk.eta]

/-- `insertSorted_filter` with the comparator-equal hypothesis restricted to
the elements actually inserted into: these are the only pairs the proof
inspects, and the restriction makes the hypothesis decidable on concrete
lists. -/
theorem insertSorted_filter_mem (f : Item → Bool) (a : Item) (l : List Item)
    (hf : ∀ y ∈ l, f a = true → f y = true → cardLe a y = true) :
    (insertSorted a l).filter f = if f a then a :: l.filter f else l.filter f := by
  induction l with
  | nil => cases hfa : f a <;> simp [insertSorted, List.filter, hfa]
  | cons b t ih =>
    have ih' := ih (fun y hy => hf y (List.mem_cons_of_mem _ hy))
    unfold insertSorted
    by_cases h : cardLe a b = true
    · simp only [h, if_true]
      by_cases hfa : f a = true
      · simp [List.filter, hfa]
      · simp only [Bool.not_eq_true] at hfa
        simp [List.filter, hfa]
    · simp only [Bool.not_eq_true] at h
      simp only [h, Bool.false_eq_true, if_false]
      by_cases hfb : f b = true
      · have hfa : f a = false := by
          rw [Bool.eq_false_iff]
          intro hfa
          rw [hf b (List.mem_cons_self _ _) hfa hfb] at h; cases h
        simp only [List.filter, hfb, hfa] at ih' ⊢
        simp [ih', hfa]
      · simp only [List.filter, hfb] at ih' ⊢
        simp [ih']

/-- `jsSortCards_filter` restricted to members of the sorted list. -/
theorem jsSortCards_filter_mem (f : Item → Bool) (l : List Item)
    (hf : ∀ x ∈ l, ∀ y ∈ l, f x = true → f y = true → cardLe x y = true) :
    (jsSortCards l).filter f = l.filter f := by
  induction l with
  | nil => rfl
  | cons a t ih =>
    unfold jsSortCards
    have ha : ∀ y ∈ jsSortCards t, f a = true → f y = true → cardLe a y = true :=
      fun y hy => hf a (List.mem_cons_self _ _) y
        (List.mem_cons_of_mem _ ((jsSortCards_perm t).mem_iff.mp hy))
    rw [insertSorted_filter_mem f a (jsSortCards t) ha,
      ih (fun x hx y hy =>
        hf x (List.mem_cons_of_mem _ hx) y (List.mem_cons_of_mem _ hy))]
    by_cases hfa : f a = true
    · simp [List.filter, hfa]
    · simp only [Bool.not_eq_true] at hfa
      simp [List.filter, hfa]

/-- C2: the sort used by `sortContainer` is a stable sort of the rated cards
by rating descending, ties broken by votes descending: it permutes its input;
on items with finite keys every element is comparator-below its successors
(`cardLe`, which for finite keys means rating strictly higher or equal rating
with votes no lower, as the third conjunct characterises); any class of
pairwise comparator-equal elements keeps its original relative order
(filter-invariance); and the concrete run on ratings 4.2 / 4.8 / 4.8 / 0 with
equal votes yields order [4.8 first-seen, 4.8 second-seen, 4.2, 0-rated]. -/
theorem c2_stable_sort (l : List Item) (f : Item → Bool)
    (hfin : ∀ x ∈ l, FiniteKeys x)
    (hf : ∀ x ∈ l, ∀ y ∈ l, f x = true → f y = true → cardLe x y = true) :
    List.Perm (jsSortCards l) l
    ∧ List.Pairwise (fun x y => cardLe x y = true) (jsSortCards l)
    ∧ (∀ a b : Item, ∀ ra rb va vb : Dec10,
        a.rating = some ra → b.rating = some rb →
        a.votes = some va → b.votes = some vb →
        (cardLe a b = true ↔
          (toQ rb < toQ ra ∨ (toQ ra = toQ rb ∧ toQ vb ≤ toQ va))))
    ∧ (jsSortCards l).filter f = l.filter f
    ∧ (sortContainer engNoHas (initSt exDomSort) 0 CType.browse).1 = true
    ∧ kidsOf (sortContainer engNoHas (initSt exDomSort) 0 CType.browse).2.dom 0
        = [2, 3, 1, 4] := by
  refine ⟨jsSortCards_perm l, jsSortCards_pairwise l hfin, ?_,
    jsSortCards_filter_mem f l hf, by decide, by decide⟩
  intro a b ra rb va vb hra hrb hva hvb
  exact cardLe_iff a b ra rb va vb hra hrb hva hvb

/-- C2 (witness): the stable-sort theorem applied to the concrete item list
of the example, with the comparator-equal class of the two 4.8-rated items. -/
theorem c2_stable_sort_witness :
    List.Perm (jsSortCards exItems) exItems
    ∧ List.Pairwise (fun x y => cardLe x y = true) (jsSortCards exItems)
    ∧ (jsSortCards exItems).filter exEqClass = exItems.filter exEqClass :=
  ⟨(c2_stable_sort exItems exEqClass (by decide) (by decide)).1,
   (c2_stable_sort exItems exEqClass (by decide) (by decide)).2.1,
   (c2_stable_sort exItems exEqClass (by decide) (by decide)).2.2.2.1⟩

/-! ## Claim C10: the earlier per-type handlers versus `sortContainer` -/

theorem oldProcessCard_eq (s : St) (c : ℕ)
    (h : (querySel s.dom c innerCardSel).isSome = true) :
    oldProcessCard s c = ((processCard s c).1, some (processCard s c).2) := by
  unfold oldProcessCard processCard
  cases hq : querySel s.dom c innerCardSel with
  | none => rw [hq] at h; cases h
  | some ic => rfl

theorem filterMap_id_map_some (l : List Item) : (l.map some).filterMap id = l := by
  induction l with
  | nil => rfl
  | cons a t ih => simp [ih]

/-- On cards that all have an inner-card descendant, the two per-card
pipelines agree: the old one returns exactly the new one's items, each
wrapped in `some`. -/
theorem oldProcessCards_eq (cards : List ℕ) (s : St)
    (hk : KeysNodup s.dom) (hl : TitleLeaves s.dom)
    (hin : ∀ card ∈ cards, (querySel s.dom card innerCardSel).isSome = true) :
    oldProcessCards s cards
      = ((processCards s cards).1, (processCards s cards).2.map some) := by
  unfold oldProcessCards processCards
  suffices h : ∀ (s : St) (acc : List Item), KeysNodup s.dom → TitleLeaves s.dom →
      (∀ card ∈ cards, (querySel s.dom card innerCardSel).isSome = true) →
      cards.foldl (fun acc card =>
          let r := oldProcessCard acc.1 card
          (r.1, acc.2 ++ [r.2])) (s, acc.map some)
        = ((cards.foldl (fun acc card =>
            let r := processCard acc.1 card
            (r.1, acc.2 ++ [r.2])) (s, acc)).1,
           (cards.foldl (fun acc card =>
            let r := processCard acc.1 card
            (r.1, acc.2 ++ [r.2])) (s, acc)).2.map some) by
    exact h s [] hk hl hin
  clear hk hl hin s
  induction cards with
  | nil => intro s acc _ _ _; rfl
  | cons c rest ih =>
    intro s acc hk hl hin
    simp only [List.foldl_cons]
    have hc := oldProcessCard_eq s c (hin c (List.mem_cons_self _ _))
    rw [hc]
    have hmap : acc.map some ++ [some (processCard s c).2]
        = (acc ++ [(processCard s c).2]).map some := by simp
    rw [hmap]
    have hshape : shapeOf ((processCard s c).1).dom = shapeOf s.dom :=
      processCard_shape s c hk hl
    exact ih ((processCard s c).1) (acc ++ [(processCard s c).2])
      (KeysNodup_shape _ _ hshape hk) (TitleLeaves_shape _ _ hshape hl)
      (fun card hcard => by
        rw [querySel_shape _ _ hshape]
        exact hin card (List.mem_cons_of_mem _ hcard))

/-- The `find?`-with-revalidation of `resolveCardSel` and the first-hit scan
of `handleGenericContainer` agree: either no fallback selector matches (and
the scan yields the empty list), or the found selector's query yields exactly
the scan's non-empty card list. -/
theorem firstFallback_find (eng : Engine) (d : Dom) (root : ℕ) (sels : List Sel) :
    ((sels.find? (fun s => match queryAllE eng d root s with
        | .ok l => decide (0 < l.length)
        | .error _ => false)) = none
      ∧ firstFallbackCards eng d root sels = [])
    ∨ (∃ sel, (sels.find? (fun s => match queryAllE eng d root s with
        | .ok l => decide (0 < l.length)
        | .error _ => false)) = some sel
        ∧ queryAllE eng d root sel = .ok (firstFallbackCards eng d root sels)
        ∧ 0 < (firstFallbackCards eng d root sels).length) := by
  induction sels with
  | nil => exact .inl ⟨rfl, rfl⟩
  | cons sel rest ih =>
    have h0 : firstFallbackCards eng d root (sel :: rest)
        = match queryAllE eng d root sel with
          | .error _ => firstFallbackCards eng d root rest
          | .ok l => if 0 < l.length then l else firstFallbackCards eng d root rest := rfl
    cases hq : queryAllE eng d root sel with
    | error e =>
      have hstep : firstFallbackCards eng d root (sel :: rest)
          = firstFallbackCards eng d root rest := by rw [h0, hq]
      have hneg : ¬((match queryAllE eng d root sel with
          | .ok l => decide (0 < l.length)
          | .error _ => false) = true) := by
        rw [hq]; simp
      rw [@List.find?_cons_of_neg _ (fun s => match queryAllE eng d root s with
        | .ok l => decide (0 < l.length)
        | .error _ => false) sel rest hneg, hstep]
      exact ih
    | ok l =>
      by_cases hl : 0 < l.length
      · have hstep : firstFallbackCards eng d root (sel :: rest) = l := by
          rw [h0, hq]
          show (if 0 < l.length then l else firstFallbackCards eng d root rest) = l
          rw [if_pos hl]
        have hpos : (match queryAllE eng d root sel with
            | .ok l => decide (0 < l.length)
            | .error _ => false) = true := by
          rw [hq]; simpa using hl
        rw [@List.find?_cons_of_pos _ (fun s => match queryAllE eng d root s with
          | .ok l => decide (0 < l.length)
          | .error _ => false) sel rest hpos, hstep]
        exact .inr ⟨sel, rfl, hq, hl⟩
      · have hstep : firstFallbackCards eng d root (sel :: rest)
            = firstFallbackCards eng d root rest := by
          rw [h0, hq]
          show (if 0 < l.length then l else firstFallbackCards eng d root rest)
            = firstFallbackCards eng d root rest
          rw [if_neg hl]
        have hneg : ¬((match queryAllE eng d root sel with
            | .ok l => decide (0 < l.length)
            | .error _ => false) = true) := by
          rw [hq]; simpa using hl
        rw [@List.find?_cons_of_neg _ (fun s => match queryAllE eng d root s with
          | .ok l => decide (0 < l.length)
          | .error _ => false) sel rest hneg, hstep]
        exact ih

/-- `sortContainer` with type `generic` and the old generic handler run the
same fallback cascade, card pipeline and reorder, and even schedule the same
scrolls: they are equal outright. -/
theorem sortGeneric_eq (eng : Engine) (s : St) (container : ℕ) :
    sortContainer eng s container CType.generic = handleGenericContainer eng s container := by
  unfold sortContainer handleGenericContainer resolveCardSel
  by_cases hpc : s.processedContainers.contains container = true
  · rw [if_pos hpc, if_pos hpc]
  · rw [if_neg hpc, if_neg hpc]
    rcases firstFallback_find eng s.dom container cardFallbacks with
      ⟨hfind, hcards⟩ | ⟨sel, hfind, hok, hpos⟩
    · rw [hfind, hcards]
      rw [if_pos (by decide : ([] : List ℕ).length < 2)]
    · rw [hfind]
      dsimp only
      rw [hok]
      rfl

/-- On a document where every carousel card has an inner-card descendant,
`sortContainer` with type `carousel` coincides with the old carousel handler
in every observable (the old handler also scheduled the scroll reset). -/
theorem sortCarousel_eq (eng : Engine) (s : St) (container : ℕ)
    (hk : KeysNodup s.dom) (hl : TitleLeaves s.dom)
    (hin : ∀ card ∈ queryAll s.dom container carouselCardSel,
      (querySel s.dom card innerCardSel).isSome = true) :
    sortContainer eng s container CType.carousel = handleCarouselContainer s container := by
  unfold sortContainer handleCarouselContainer resolveCardSel
  by_cases hpc : s.processedContainers.contains container = true
  · rw [if_pos hpc, if_pos hpc]
  · rw [if_neg hpc, if_neg hpc]
    dsimp only
    have hcards : (match queryAllE eng s.dom container carouselCardSel with
        | .ok l => l
        | .error _ => []) = queryAll s.dom container carouselCardSel := rfl
    rw [hcards]
    by_cases hlen : (queryAll s.dom container carouselCardSel).length < 2
    · rw [if_pos hlen, if_pos hlen]
    · rw [if_neg hlen, if_neg hlen]
      rw [oldProcessCards_eq (queryAll s.dom container carouselCardSel) s hk hl hin]
      dsimp only
      rw [filterMap_id_map_some]
      rfl

/-- On a document where every browse card has an inner-card descendant,
`sortContainer` with type `browse` coincides with the old browse handler up
to the scheduled scroll resets (the new version may additionally scroll when
the container's class mentions "carousel" or "scroller"). -/
theorem sortBrowse_eq (eng : Engine) (s : St) (container : ℕ)
    (hk : KeysNodup s.dom) (hl : TitleLeaves s.dom)
    (hin : ∀ card ∈ queryAll s.dom container browseCardSel,
      (querySel s.dom card innerCardSel).isSome = true) :
    ∃ n, sortContainer eng s container CType.browse
      = ((handleBrowseContainer s container).1,
         { (handleBrowseContainer s container).2 with pendingScrolls := n }) := by
  unfold sortContainer handleBrowseContainer resolveCardSel
  by_cases hpc : s.processedContainers.contains container = true
  · rw [if_pos hpc, if_pos hpc]
    exact ⟨s.pendingScrolls, rfl⟩
  · rw [if_neg hpc, if_neg hpc]
    dsimp only
    have hcards : (match queryAllE eng s.dom container browseCardSel with
        | .ok l => l
        | .error _ => []) = queryAll s.dom container browseCardSel := rfl
    rw [hcards]
    by_cases hlen : (queryAll s.dom container browseCardSel).length < 2
    · rw [if_pos hlen, if_pos hlen]
      exact ⟨s.pendingScrolls, rfl⟩
    · rw [if_neg hlen, if_neg hlen]
      rw [oldProcessCards_eq (queryAll s.dom container browseCardSel) s hk hl hin]
      dsimp only
      rw [filterMap_id_map_some]
      by_cases hrat : (List.filter (fun it => jsGtNum it.rating (jsInt 0))
          (processCards s (queryAll s.dom container browseCardSel)).2).length < 2
      · rw [if_pos hrat, if_pos hrat]
        exact ⟨(processCards s (queryAll s.dom container browseCardSel)).1.pendingScrolls, rfl⟩
      · rw [if_neg hrat, if_neg hrat]
        exact ⟨(processCards s (queryAll s.dom container browseCardSel)).1.pendingScrolls +
          (if (strIncludes (classNameOf
                 (processCards s (queryAll s.dom container browseCardSel)).1.dom container)
                 "carousel"
              || strIncludes (classNameOf
                 (processCards s (queryAll s.dom container browseCardSel)).1.dom container)
                 "scroller") = true then 1 else 0), rfl⟩

/-- C10 (counterexample): on a carousel whose cards carry rating data but no
inner-card (`browse-card--esJdT`) descendant, the current `sortContainer`
falls back to the card itself (`querySelector(...) || card`), finds the
ratings and sorts (returning `true`, children reordered to [2, 1]); the old
`handleCarouselContainer` has no such fallback, skips every card and returns
`false` with the children untouched — so the two iterations are not
equivalent as claimed. -/
theorem c10_counterexample :
    (sortContainer engNoHas (initSt exDomNoInner) 0 CType.carousel).1 = true
    ∧ kidsOf (sortContainer engNoHas (initSt exDomNoInner) 0 CType.carousel).2.dom 0
        = [2, 1]
    ∧ (handleCarouselContainer (initSt exDomNoInner) 0).1 = false
    ∧ kidsOf (handleCarouselContainer (initSt exDomNoInner) 0).2.dom 0 = [1, 2] := by
  decide

/-- C10 (amended): the refinement does hold once every card resolved by the
per-type selector has an inner-card descendant (so the `|| card` fallback of
the new iteration never fires).  Then: for `generic` the two iterations are
outright equal (the fallback cascade, validated re-query and scroll condition
coincide); for `carousel` they are outright equal; for `browse` they agree on
the returned boolean, the resulting document (child order and title
annotations) and both processed sets, differing at most in scheduled scroll
resets (the old browse handler never scrolled). -/
theorem c10_amended (eng : Engine) (s : St) (container : ℕ)
    (hk : KeysNodup s.dom) (hl : TitleLeaves s.dom)
    (hinC : ∀ card ∈ queryAll s.dom container carouselCardSel,
      (querySel s.dom card innerCardSel).isSome = true)
    (hinB : ∀ card ∈ queryAll s.dom container browseCardSel,
      (querySel s.dom card innerCardSel).isSome = true) :
    sortContainer eng s container CType.generic
        = handleGenericContainer eng s container
    ∧ sortContainer eng s container CType.carousel
        = handleCarouselContainer s container
    ∧ (sortContainer eng s container CType.browse).1
        = (handleBrowseContainer s container).1
    ∧ (sortContainer eng s container CType.browse).2.dom
        = (handleBrowseContainer s container).2.dom
    ∧ (sortContainer eng s container CType.browse).2.processedCards
        = (handleBrowseContainer s container).2.processedCards
    ∧ (sortContainer eng s container CType.browse).2.processedContainers
        = (handleBrowseContainer s container).2.processedContainers := by
  obtain ⟨n, hb⟩ := sortBrowse_eq eng s container hk hl hinB
  refine ⟨sortGeneric_eq eng s container,
    sortCarousel_eq eng s container hk hl hinC, ?_, ?_, ?_, ?_⟩ <;> rw [hb]

/-- C10 (witness): the amended equivalence on a browse layout whose two cards
both contain inner cards; the carousel hypothesis is vacuous there. -/
theorem c10_amended_witness :
    sortContainer engNoHas (initSt exDomInner) 0 CType.generic
        = handleGenericContainer engNoHas (initSt exDomInner) 0
    ∧ sortContainer engNoHas (initSt exDomInner) 0 CType.carousel
        = handleCarouselContainer (initSt exDomInner) 0 :=
  ⟨(c10_amended engNoHas (initSt exDomInner) 0 (by decide) (by decide)
      (by decide) (by decide)).1,
   (c10_amended engNoHas (initSt exDomInner) 0 (by decide) (by decide)
      (by decide) (by decide)).2.1⟩
